import Mathlib

/-
Verification of the session/room coordination core of the GameBox backend
(src/backend-server.js): the in-memory player and room registries, the
socket event handlers (register-player, join-room, leave-room, player-move,
chat-message, disconnect) and the idle-session reaper interval.

The JavaScript state is embedded shallowly: the two `Map` objects become
association lists keyed by strings (JS `Map` preserves insertion order and
has unique keys), `Set` objects become duplicate-free lists in insertion
order, JS numbers become rationals extended with a NaN point, and each
handler becomes a pure function from server state to server state paired
with the list of outbound emits in emission order.
-/

namespace GameBox

abbrev SocketId := String
abbrev RoomId := String

/-- JS number: NaN or a rational value (float width is not modelled; every
numeric computation in the handlers is exact at this granularity). -/
inductive JNum where
  | nan : JNum
  | val : ℚ → JNum
deriving DecidableEq

/-- Fragment of JS values that the handler payload fields range over. -/
inductive JSVal where
  | undef : JSVal
  | nullv : JSVal
  | boolv : Bool → JSVal
  | num : JNum → JSVal
  | str : String → JSVal
deriving DecidableEq

/-- Value of one decimal digit character. -/
def digitVal (c : Char) : Option Nat :=
  if c.isDigit then some (c.toNat - 48) else none

/-- Reads a nonempty all-digit character list as a natural number. -/
def digitsVal : List Char → Option Nat
  | [] => none
  | l => l.foldl (fun acc c =>
      match acc, digitVal c with
      | some a, some d => some (a * 10 + d)
      | _, _ => none) (some 0)

/-- Whitespace test used by the string-to-number coercion. -/
def isJsSpace (c : Char) : Bool :=
  decide (c = ' ' ∨ c = '\t' ∨ c = '\n' ∨ c = '\r')

/-- Strips leading and trailing whitespace from a character list. -/
def jsTrim (l : List Char) : List Char :=
  ((l.dropWhile isJsSpace).reverse.dropWhile isJsSpace).reverse

/-- Value of one hexadecimal digit character. -/
def hexDigitVal (c : Char) : Option Nat :=
  if c.isDigit then some (c.toNat - 48)
  else if 'a' ≤ c ∧ c ≤ 'f' then some (c.toNat - 87)
  else if 'A' ≤ c ∧ c ≤ 'F' then some (c.toNat - 55)
  else none

/-- Reads a nonempty digit string in the given radix (2, 8 or 16). -/
def radixDigitsVal (radix : Nat) : List Char → Option Nat
  | [] => none
  | l => l.foldl (fun acc c =>
      match acc, hexDigitVal c with
      | some a, some d => if d < radix then some (a * radix + d) else none
      | _, _ => none) (some 0)

/-- Splits a numeric literal at its exponent marker, when present. -/
def splitExp (l : List Char) : List Char × Option (List Char) :=
  match l.span (fun c => !decide (c = 'e' ∨ c = 'E')) with
  | (mant, []) => (mant, none)
  | (mant, _ :: rest) => (mant, some rest)

/-- Reads an optionally-signed all-digit exponent. -/
def parseSignedInt : List Char → Option Int
  | '-' :: rest => (digitsVal rest).map (fun n => -(n : Int))
  | '+' :: rest => (digitsVal rest).map (fun n => (n : Int))
  | l => (digitsVal l).map (fun n => (n : Int))

/-- Reads an unsigned decimal mantissa: digits, digits followed by a dot,
digits dot digits, or dot digits. -/
def parseMantissa (l : List Char) : Option ℚ :=
  match l.span Char.isDigit with
  | (intPart, []) => (digitsVal intPart).map (fun n => (n : ℚ))
  | (intPart, '.' :: fracPart) =>
    if fracPart = [] then (digitsVal intPart).map (fun n => (n : ℚ))
    else
      match digitsVal fracPart with
      | none => none
      | some f =>
        match digitsVal intPart with
        | some n => some ((n : ℚ) + (f : ℚ) / (10 : ℚ) ^ fracPart.length)
        | none =>
          if intPart = [] then
            some ((f : ℚ) / (10 : ℚ) ^ fracPart.length)
          else none
  | _ => none

/-- Reads an unsigned decimal literal with an optional exponent part. -/
def parseDec (l : List Char) : Option ℚ :=
  match splitExp l with
  | (mant, none) => parseMantissa mant
  | (mant, some e) =>
    match parseMantissa mant, parseSignedInt e with
    | some m, some ex =>
      some (if 0 ≤ ex then m * (10 : ℚ) ^ ex.toNat
            else m / (10 : ℚ) ^ (-ex).toNat)
    | _, _ => none

/-- Reads an optionally-signed decimal literal. -/
def parseStrDec : List Char → Option ℚ
  | '-' :: rest => (parseDec rest).map Neg.neg
  | '+' :: rest => parseDec rest
  | l => parseDec l

/-- Modelled from the spec: the JS runtime coercion `ToNumber` on strings
(the transport hands payloads to the handlers as arbitrary JS values; the
runtime itself is outside this repository).  Covers whitespace trimming,
optionally-signed decimal literals with fraction and exponent parts, and
the 0x / 0o / 0b integer prefixes; every other string, including the
Infinity literals (no point of ℚ represents them), maps to NaN. -/
def strToNum (s : String) : JNum :=
  let t := jsTrim s.data
  if t = [] then .val 0
  else
    match t with
    | '0' :: 'x' :: rest => (radixDigitsVal 16 rest).elim .nan (fun n => .val (n : ℚ))
    | '0' :: 'X' :: rest => (radixDigitsVal 16 rest).elim .nan (fun n => .val (n : ℚ))
    | '0' :: 'o' :: rest => (radixDigitsVal 8 rest).elim .nan (fun n => .val (n : ℚ))
    | '0' :: 'O' :: rest => (radixDigitsVal 8 rest).elim .nan (fun n => .val (n : ℚ))
    | '0' :: 'b' :: rest => (radixDigitsVal 2 rest).elim .nan (fun n => .val (n : ℚ))
    | '0' :: 'B' :: rest => (radixDigitsVal 2 rest).elim .nan (fun n => .val (n : ℚ))
    | l => (parseStrDec l).elim .nan (fun q => .val q)

/-- JS truthiness of a value. -/
def truthy : JSVal → Bool
  | .undef => false
  | .nullv => false
  | .boolv b => b
  | .num .nan => false
  | .num (.val q) => decide (q ≠ 0)
  | .str s => decide (s ≠ "")

/-- JS `ToNumber` on the modelled value fragment. -/
def toNumber : JSVal → JNum
  | .undef => .nan
  | .nullv => .val 0
  | .boolv b => .val (if b then 1 else 0)
  | .num n => n
  | .str s => strToNum s

/-- JS `a || b`: yields `a` when truthy, else `b`. -/
def jsOr (v d : JSVal) : JSVal := if truthy v then v else d

/-- JS truthiness view of the `player.room` field (a null-or-string value):
`if (player.room)` runs its block iff the field holds a non-empty string,
since both null and the empty string are falsy.  Yields the room id when
the field is truthy and `none` otherwise. -/
def jsRoom : Option RoomId → Option RoomId
  | none => none
  | some r => if r = "" then none else some r

/-- JS `Math.min` on two numbers: NaN-propagating minimum. -/
def jsMin (a b : JNum) : JNum :=
  match a, b with
  | .val x, .val y => .val (min x y)
  | _, _ => .nan

/-- JS `Math.max` on two numbers: NaN-propagating maximum. -/
def jsMax (a b : JNum) : JNum :=
  match a, b with
  | .val x, .val y => .val (max x y)
  | _, _ => .nan

/-- JS `String.prototype.slice(0, n)` (length counted in the same units as
Lean characters). -/
def jsSlice (s : String) (n : Nat) : String := String.mk (s.data.take n)

/-- Avatar record: body colour, head colour, accessory tag. -/
structure Avatar where
  body : String
  head : String
  accessory : String
deriving DecidableEq

/-- Default avatar supplied by the register-player handler. -/
def defaultAvatar : Avatar :=
  { body := "#3b82f6", head := "#fbbf24", accessory := "none" }

/-- Per-connection player state, one entry of the `players` map. -/
structure Player where
  id : SocketId
  username : String
  avatar : Avatar
  x : JNum
  y : JNum
  room : Option RoomId
  lastUpdate : Nat
deriving DecidableEq

/-- Lookup in a JS `Map` modelled as an association list. -/
def mget {α : Type} : List (String × α) → String → Option α
  | [], _ => none
  | e :: m, k => if e.1 = k then some e.2 else mget m k

/-- JS `Map.prototype.has`. -/
def mhas {α : Type} (m : List (String × α)) (k : String) : Bool :=
  (mget m k).isSome

/-- JS `Map.prototype.set`: replaces the entry in place if the key is
present, otherwise appends at the end (JS maps preserve insertion order). -/
def mset {α : Type} (m : List (String × α)) (k : String) (v : α) :
    List (String × α) :=
  if mhas m k then m.map (fun e => if e.1 = k then (k, v) else e)
  else m ++ [(k, v)]

/-- JS `Map.prototype.delete`. -/
def mdel {α : Type} (m : List (String × α)) (k : String) :
    List (String × α) :=
  m.filter (fun e => !decide (e.1 = k))

/-- JS `Set.prototype.add` on a set modelled as a duplicate-free list. -/
def setAdd (s : List SocketId) (id : SocketId) : List SocketId :=
  if id ∈ s then s else s ++ [id]

/-- JS `Set.prototype.delete`. -/
def setDel (s : List SocketId) (id : SocketId) : List SocketId :=
  s.filter (fun x => !decide (x = id))

/-- The two registries: the global `players` and `rooms` maps. -/
structure ServerState where
  players : List (SocketId × Player)
  rooms : List (RoomId × List SocketId)
deriving DecidableEq

/-- Both maps start empty. -/
def initState : ServerState := { players := [], rooms := [] }

/-- Member set of a room; the empty set when the room key is absent. -/
def roomMembers (s : ServerState) (r : RoomId) : List SocketId :=
  (mget s.rooms r).getD []

/-- Outbound event payloads the handlers construct. -/
inductive Payload where
  | registrationConfirmed : SocketId → String → Payload
  | errorMsg : String → Payload
  | playersUpdate : List Player → Payload
  | playerJoined : SocketId → String → Avatar → JNum → JNum → Payload
  | playerLeft : SocketId → Payload
  | playerMoved : SocketId → JNum → JNum → Nat → Payload
  | chatMessage : Nat → SocketId → String → String → Nat → Payload
deriving DecidableEq

/-- Outbound emits with their transport-level targeting: `socket.emit`
(unicast to the sender), `socket.to(room).emit` (room broadcast excluding
the sender) and `io.to(room).emit` (room broadcast including everyone). -/
inductive OutEvent where
  | unicast : SocketId → Payload → OutEvent
  | toRoomExceptSender : RoomId → SocketId → Payload → OutEvent
  | toRoomAll : RoomId → Payload → OutEvent
deriving DecidableEq

/-- JS exceptions a handler can raise. -/
inductive JSError where
  | typeError : String → JSError
deriving DecidableEq

/-- Shared shape of the room-cleanup code repeated by join-room, leave-room,
disconnect and the reaper: drop `sid` from the member set of `r` and delete
the room entry when the member set became empty. -/
def roomsAfterLeave (rooms : List (RoomId × List SocketId)) (r : RoomId)
    (sid : SocketId) : List (RoomId × List SocketId) :=
  match mget rooms r with
  | none => rooms
  | some ms =>
    if setDel ms sid = [] then mdel rooms r
    else mset rooms r (setDel ms sid)

/-- Leave-previous-room block shared by the join-room, leave-room and
disconnect handlers: remove the player from room `r`, delete the room if it
became empty, otherwise broadcast a player-left notice to the remaining
members. -/
def leaveOldRoom (sid : SocketId) (r : RoomId) (s : ServerState) :
    ServerState × List OutEvent :=
  match mget s.rooms r with
  | none => (s, [])
  | some ms =>
    if setDel ms sid = [] then
      ({ s with rooms := mdel s.rooms r }, [])
    else
      ({ s with rooms := mset s.rooms r (setDel ms sid) },
       [.toRoomExceptSender r sid (.playerLeft sid)])

/-- Handler of the register-player event: create or overwrite the Player
entry with defaults for missing fields (`playerData.username || ...`,
`playerData.avatar || ...`) and unicast a registration acknowledgment.
Note the fresh entry always carries `room = none` and the rooms map is not
touched. -/
def registerPlayer (now : Nat) (sid : SocketId) (username? : Option String)
    (avatar? : Option Avatar) (s : ServerState) :
    ServerState × List OutEvent :=
  let uname :=
    match username? with
    | some u => if u = "" then "Player_" ++ jsSlice sid 6 else u
    | none => "Player_" ++ jsSlice sid 6
  let p : Player :=
    { id := sid, username := uname, avatar := avatar?.getD defaultAvatar,
      x := .val 50, y := .val 300, room := none, lastUpdate := now }
  ({ s with players := mset s.players sid p },
   [.unicast sid (.registrationConfirmed sid "Successfully registered!")])

/-- Handler of the join-room event. -/
def onJoinRoom (now : Nat) (sid : SocketId) (roomId : RoomId)
    (s : ServerState) : ServerState × List OutEvent :=
  match mget s.players sid with
  | none => (s, [.unicast sid (.errorMsg "Player not registered")])
  | some player =>
    let step1 :=
      match jsRoom player.room with
      | some oldR => leaveOldRoom sid oldR s
      | none => (s, [])
    let s1 := step1.1
    let player1 := { player with room := some roomId, lastUpdate := now }
    let s2 := { s1 with players := mset s1.players sid player1 }
    let s3 :=
      if mhas s2.rooms roomId then s2
      else { s2 with rooms := mset s2.rooms roomId [] }
    let s4 := { s3 with
      rooms := mset s3.rooms roomId (setAdd (roomMembers s3 roomId) sid) }
    let roster :=
      ((roomMembers s4 roomId).filter (fun i => !decide (i = sid))).filterMap
        (fun i => mget s4.players i)
    (s4, step1.2 ++
      [.unicast sid (.playersUpdate roster),
       .toRoomExceptSender roomId sid
         (.playerJoined player1.id player1.username player1.avatar
           player1.x player1.y)])

/-- Handler of the leave-room event. -/
def onLeaveRoom (sid : SocketId) (s : ServerState) :
    ServerState × List OutEvent :=
  match mget s.players sid with
  | none => (s, [])
  | some player =>
    match jsRoom player.room with
    | none => (s, [])
    | some r =>
      let step1 := leaveOldRoom sid r s
      ({ step1.1 with
          players := mset step1.1.players sid { player with room := none } },
       step1.2)

/-- Handler of the player-move event: clamp each coordinate with
`Math.max(0, Math.min(bound, v || 0))`, store it, refresh `lastUpdate` and
broadcast player-moved to the rest of the room. -/
def clampCoord (bound : ℚ) (v : JSVal) : JNum :=
  jsMax (.val 0) (jsMin (.val bound) (toNumber (jsOr v (.num (.val 0)))))

/-- Handler of the player-move event. -/
def onPlayerMove (now : Nat) (sid : SocketId) (dx dy : JSVal)
    (s : ServerState) : ServerState × List OutEvent :=
  match mget s.players sid with
  | none => (s, [])
  | some player =>
    match jsRoom player.room with
    | none => (s, [])
    | some r =>
      let x := clampCoord 750 dx
      let y := clampCoord 350 dy
      let player1 := { player with x := x, y := y, lastUpdate := now }
      ({ s with players := mset s.players sid player1 },
       [.toRoomExceptSender r sid (.playerMoved sid x y now)])

/-- Handler of the chat-message event: `data.message.slice(0, 200)` throws
a TypeError unless the message value has a `slice` method (a string in the
modelled value fragment); on a string it truncates to 200 units and
broadcasts the message object to the whole room, sender included. -/
def onChatMessage (now : Nat) (sid : SocketId) (msg : JSVal)
    (s : ServerState) : Except JSError (ServerState × List OutEvent) :=
  match mget s.players sid with
  | none => .ok (s, [])
  | some player =>
    match jsRoom player.room with
    | none => .ok (s, [])
    | some r =>
      match msg with
      | .str text =>
        .ok (s, [.toRoomAll r
          (.chatMessage now sid player.username (jsSlice text 200) now)])
      | _ => .error (.typeError "data.message.slice is not a function")

/-- Registry state after a chat-message event: unchanged both on the
success path (chat mutates no registry) and when the handler throws. -/
def chatResultState (now : Nat) (sid : SocketId) (msg : JSVal)
    (s : ServerState) : ServerState :=
  match onChatMessage now sid msg s with
  | .ok (s1, _) => s1
  | .error _ => s

/-- Handler of the disconnect event. -/
def onDisconnect (sid : SocketId) (s : ServerState) :
    ServerState × List OutEvent :=
  match mget s.players sid with
  | none => (s, [])
  | some player =>
    let step1 :=
      match jsRoom player.room with
      | some r => leaveOldRoom sid r s
      | none => (s, [])
    ({ step1.1 with players := mdel step1.1.players sid }, step1.2)

/-- Idle threshold of the reaper, in milliseconds: `5 * 60 * 1000`. -/
def reapTimeout : Int := 5 * 60 * 1000

/-- Staleness test of the reaper: `now - player.lastUpdate > timeout`. -/
def isStale (now : Nat) (p : Player) : Bool :=
  decide ((now : Int) - (p.lastUpdate : Int) > reapTimeout)

/-- One eviction of the reaper: silently drop the player from its room
(deleting the room when emptied) and delete the Player entry.  No
player-left broadcast is emitted. -/
def evictPlayer (sid : SocketId) (player : Player) (s : ServerState) :
    ServerState :=
  let s1 :=
    match jsRoom player.room with
    | none => s
    | some r => { s with rooms := roomsAfterLeave s.rooms r sid }
  { s1 with players := mdel s1.players sid }

/-- One fold step of the reaper scan. -/
def reapStep (now : Nat) (acc : ServerState) (e : SocketId × Player) :
    ServerState :=
  if isStale now e.2 then evictPlayer e.1 e.2 acc else acc

/-- One tick of the reaper interval: scan every Player entry and evict the
stale ones.  The scan emits no outbound events. -/
def reaperTick (now : Nat) (s : ServerState) :
    ServerState × List OutEvent :=
  (s.players.foldl (reapStep now) s, [])

/-- One inbound event of the coordinator, with the timestamp `Date.now()`
observed while handling it. -/
inductive Op where
  | register : Nat → SocketId → Option String → Option Avatar → Op
  | join : Nat → SocketId → RoomId → Op
  | leave : SocketId → Op
  | move : Nat → SocketId → JSVal → JSVal → Op
  | chat : Nat → SocketId → JSVal → Op
  | disconnect : SocketId → Op
  | reap : Nat → Op

/-- Registry state after one operation (emits projected away; a chat throw
leaves the registries as they were). -/
def applyOp (s : ServerState) : Op → ServerState
  | .register now sid u a => (registerPlayer now sid u a s).1
  | .join now sid r => (onJoinRoom now sid r s).1
  | .leave sid => (onLeaveRoom sid s).1
  | .move now sid dx dy => (onPlayerMove now sid dx dy s).1
  | .chat now sid m => chatResultState now sid m s
  | .disconnect sid => (onDisconnect sid s).1
  | .reap now => (reaperTick now s).1

/-- Runs a sequence of operations from a given state. -/
def runFrom (s : ServerState) : List Op → ServerState
  | [] => s
  | op :: ops => runFrom (applyOp s op) ops

/-- Runs a sequence of operations from the empty registries. -/
def run (ops : List Op) : ServerState := runFrom initState ops

/-- Marks an operation as avoiding the re-registration hazard: a
register-player event is benign unless its sender already holds a room. -/
def goodOp (s : ServerState) : Op → Bool
  | .register _ sid _ _ =>
    match mget s.players sid with
    | none => true
    | some p => decide (p.room = none)
  | .join _ _ roomId => !decide (roomId = "")
  | _ => true

/-- Checks a whole operation sequence, threading the evolving state. -/
def goodFrom (s : ServerState) : List Op → Bool
  | [] => true
  | op :: ops => goodOp s op && goodFrom (applyOp s op) ops

/-- Operation sequences from the empty registries that never re-register a
player while that player is still joined to a room, and never join the
falsy room id "" (which no handler can ever leave again, because the JS
truthiness guards skip the cleanup blocks for it). -/
def GoodSeq (ops : List Op) : Prop := goodFrom initState ops = true

/-- Modelled from the spec: the delivery semantics of the transport
publish/subscribe primitive (the socket.io layer, outside this repository).
`io` gives the transport-level membership of each topic room; the result
lists every (recipient, payload) delivery an emit sequence produces. -/
def delivered (io : RoomId → List SocketId) :
    List OutEvent → List (SocketId × Payload)
  | [] => []
  | .unicast t p :: evs => (t, p) :: delivered io evs
  | .toRoomExceptSender r sender p :: evs =>
    ((io r).filter (fun m => !decide (m = sender))).map (fun m => (m, p)) ++
      delivered io evs
  | .toRoomAll r p :: evs =>
    (io r).map (fun m => (m, p)) ++ delivered io evs

/-- Membership bound checked by the movement clamp. -/
def jInRange (n : JNum) (lo hi : ℚ) : Prop :=
  ∃ q : ℚ, n = .val q ∧ lo ≤ q ∧ q ≤ hi

/-- The membership-consistency property of claim C1, phrased over the
registry contents: a registered player holds a room key iff its identity
appears in some member set, and it never appears in two distinct member
sets. -/
def c1Prop (s : ServerState) : Prop :=
  ∀ sid p, mget s.players sid = some p →
    ((p.room ≠ none) ↔ ∃ r, sid ∈ roomMembers s r) ∧
    (∀ r1 r2, sid ∈ roomMembers s r1 → sid ∈ roomMembers s r2 → r1 = r2)

/-- Executable well-formedness check used as a hypothesis by per-event
theorems: unique map keys, no empty room, every member id registered, the
room field of every player consistent with the member sets, and no player
recorded in the falsy room id "" (which every handler guard skips). -/
def invCheck (s : ServerState) : Bool :=
  decide (s.players.map Prod.fst).Nodup &&
  decide (s.rooms.map Prod.fst).Nodup &&
  s.rooms.all (fun e =>
    !decide (e.2 = []) && e.2.all (fun id => (mget s.players id).isSome)) &&
  s.players.all (fun e =>
    (match e.2.room with
     | some r => decide (e.1 ∈ roomMembers s r)
     | none => true) &&
    s.rooms.all (fun e2 =>
      !decide (e.1 ∈ e2.2) || decide (e.2.room = some e2.1))) &&
  s.players.all (fun e => !decide (e.2.room = some ""))

/-- Closed form of the registry state after a successful join-room event,
used to state and prove properties of `onJoinRoom`. -/
def joinStateAux (now : Nat) (sid : SocketId) (roomId : RoomId)
    (player : Player) (s : ServerState) : ServerState :=
  let rooms1 :=
    match jsRoom player.room with
    | some oldR => roomsAfterLeave s.rooms oldR sid
    | none => s.rooms
  { players := mset s.players sid
      { player with room := some roomId, lastUpdate := now },
    rooms := mset rooms1 roomId (setAdd ((mget rooms1 roomId).getD []) sid) }

/-- Roster the join-room handler unicasts to the joiner: the members of the
new room other than the joiner, resolved through the player registry of the
post-join state (ids without a Player entry are dropped by `filter(p => p)`). -/
def joinRoster (now : Nat) (sid : SocketId) (roomId : RoomId)
    (player : Player) (s : ServerState) : List Player :=
  ((roomMembers (joinStateAux now sid roomId player s) roomId).filter
      (fun i => !decide (i = sid))).filterMap
    (fun i => mget (joinStateAux now sid roomId player s).players i)

/-- Concrete registered player used by witness states. -/
def playerA : Player :=
  { id := "a", username := "alice", avatar := defaultAvatar,
    x := .val 50, y := .val 300, room := some "r1", lastUpdate := 0 }

/-- Second concrete registered player used by witness states. -/
def playerB : Player :=
  { id := "b", username := "bob", avatar := defaultAvatar,
    x := .val 50, y := .val 300, room := some "r1", lastUpdate := 0 }

/-- Concrete well-formed state with two players sharing room r1. -/
def twoInRoom : ServerState :=
  { players := [("a", playerA), ("b", playerB)],
    rooms := [("r1", ["a", "b"])] }

/-- Reaper-scan predicate: some entry of `l` has key `sid` and is stale. -/
def staleKeyIn (now : Nat) (l : List (SocketId × Player))
    (sid : SocketId) : Bool :=
  l.any fun e => decide (e.1 = sid) && isStale now e.2

/-- Reaper-scan predicate: some entry of `l` has key `id`, is stale, and
names `r` as its room (hence its eviction removes `id` from `r`). -/
def evictedIn (now : Nat) (l : List (SocketId × Player)) (r : RoomId)
    (id : SocketId) : Bool :=
  l.any fun e => decide (e.1 = id) && isStale now e.2 &&
    decide (e.2.room = some r)

/-- Inductive invariant of the registries, in lookup-level form. -/
structure InvP (s : ServerState) : Prop where
  pkeys : (s.players.map Prod.fst).Nodup
  rkeys : (s.rooms.map Prod.fst).Nodup
  rne : ∀ r ms, mget s.rooms r = some ms → ms ≠ []
  reg : ∀ r ms, mget s.rooms r = some ms → ∀ id ∈ ms,
    (mget s.players id).isSome
  sync : ∀ sid p, mget s.players sid = some p →
    ∀ r, sid ∈ roomMembers s r ↔ p.room = some r
  noER : ∀ sid p, mget s.players sid = some p → p.room ≠ some ""

section MapLemmas

variable {α : Type}

theorem mget_append (m1 m2 : List (String × α)) (k : String) :
    mget (m1 ++ m2) k = (mget m1 k).or (mget m2 k) := by
  induction m1 with
  | nil => simp [mget]
  | cons e m ih =>
    by_cases h : e.1 = k
    · simp [mget, h]
    · simp [mget, h, ih]

theorem mget_replace (m : List (String × α)) (k k' : String) (v : α) :
    mget (m.map fun e => if e.1 = k then (k, v) else e) k'
      = if k' = k then (mget m k').map (fun _ => v) else mget m k' := by
  induction m with
  | nil => by_cases h : k' = k <;> simp [mget, h]
  | cons e m ih =>
    simp only [List.map_cons, mget]
    by_cases hek : e.1 = k
    · by_cases hkk : k' = k
      · subst hkk
        simp [hek, mget]
      · simp [hek, Ne.symm hkk, hkk, ih, mget]
    · by_cases hek' : e.1 = k'
      · have hkk : ¬ k' = k := fun h => hek (hek'.trans h)
        simp [hek, hek', hkk, mget]
      · simp [hek, hek', ih, mget]

theorem mget_mset (m : List (String × α)) (k k' : String) (v : α) :
    mget (mset m k v) k' = if k' = k then some v else mget m k' := by
  unfold mset
  by_cases h : mhas m k
  · rw [if_pos h, mget_replace]
    by_cases hkk : k' = k
    · subst hkk
      unfold mhas at h
      obtain ⟨w, hw⟩ := Option.isSome_iff_exists.mp h
      simp [hw]
    · simp [hkk]
  · rw [if_neg h, mget_append]
    unfold mhas at h
    rw [Option.not_isSome_iff_eq_none] at h
    by_cases hkk : k' = k
    · subst hkk
      simp [h, mget]
    · rw [if_neg hkk]
      have h2 : mget ([(k, v)] : List (String × α)) k' = none := by
        have hkk' : ¬ k = k' := fun hh => hkk hh.symm
        simp [mget, hkk']
      rw [h2, Option.or_none]

theorem mget_mdel (m : List (String × α)) (k k' : String) :
    mget (mdel m k) k' = if k' = k then none else mget m k' := by
  induction m with
  | nil => by_cases h : k' = k <;> simp [mdel, mget, h]
  | cons e m ih =>
    by_cases hek : e.1 = k
    · have : mdel (e :: m) k = mdel m k := by
        simp [mdel, List.filter_cons, hek]
      rw [this, ih]
      by_cases hkk : k' = k
      · simp [hkk]
      · have hek' : ¬ e.1 = k' := fun h => hkk ((h.symm.trans hek))
        simp [hkk, mget, hek']
    · have : mdel (e :: m) k = e :: mdel m k := by
        simp [mdel, List.filter_cons, hek]
      rw [this]
      by_cases hek' : e.1 = k'
      · have hkk : ¬ k' = k := fun h => hek (hek'.trans h)
        simp [mget, hek', hkk]
      · simp [mget, hek', ih]

theorem mdel_of_mget_none (m : List (String × α)) (k : String)
    (h : mget m k = none) : mdel m k = m := by
  induction m with
  | nil => rfl
  | cons e m ih =>
    simp only [mget] at h
    by_cases hek : e.1 = k
    · simp [hek] at h
    · rw [if_neg hek] at h
      have h2 : mdel (e :: m) k = e :: mdel m k := by
        simp [mdel, List.filter_cons, hek]
      rw [h2, ih h]

theorem mdel_replace (m : List (String × α)) (k : String) (v : α) :
    mdel (m.map fun e => if e.1 = k then (k, v) else e) k = mdel m k := by
  induction m with
  | nil => rfl
  | cons e m ih =>
    by_cases hek : e.1 = k
    · simp [mdel, List.map_cons, List.filter_cons, hek] at ih ⊢
      exact ih
    · simp [mdel, List.map_cons, List.filter_cons, hek] at ih ⊢
      exact ih

theorem mdel_mset (m : List (String × α)) (k : String) (v : α) :
    mdel (mset m k v) k = mdel m k := by
  unfold mset
  by_cases h : mhas m k
  · rw [if_pos h, mdel_replace]
  · rw [if_neg h]
    simp [mdel, List.filter_append]

theorem keys_mset_of_mhas (m : List (String × α)) (k : String) (v : α)
    (h : mhas m k = true) :
    (mset m k v).map Prod.fst = m.map Prod.fst := by
  unfold mset
  rw [if_pos h, List.map_map]
  apply List.map_congr_left
  intro e _
  by_cases hek : e.1 = k
  · simp [hek]
  · simp [hek]

theorem keys_mset_of_not_mhas (m : List (String × α)) (k : String) (v : α)
    (h : ¬ mhas m k = true) :
    (mset m k v).map Prod.fst = m.map Prod.fst ++ [k] := by
  unfold mset
  rw [if_neg h]
  simp

theorem mget_none_iff (m : List (String × α)) (k : String) :
    mget m k = none ↔ k ∉ m.map Prod.fst := by
  induction m with
  | nil => simp [mget]
  | cons e m ih =>
    rw [List.map_cons]
    by_cases hek : e.1 = k
    · simp [mget, hek]
    · rw [mget, if_neg hek, ih]
      constructor
      · intro h hmem
        rcases List.mem_cons.mp hmem with h1 | h2
        · exact hek h1.symm
        · exact h h2
      · intro h hmem
        exact h (List.mem_cons_of_mem _ hmem)

theorem nodup_keys_mset (m : List (String × α)) (k : String) (v : α)
    (h : (m.map Prod.fst).Nodup) :
    ((mset m k v).map Prod.fst).Nodup := by
  by_cases hh : mhas m k
  · rw [keys_mset_of_mhas m k v hh]; exact h
  · rw [keys_mset_of_not_mhas m k v hh]
    unfold mhas at hh
    rw [Option.not_isSome_iff_eq_none, mget_none_iff] at hh
    simp [List.nodup_append, h, hh]

theorem keys_mdel_sublist (m : List (String × α)) (k : String) :
    ((mdel m k).map Prod.fst).Sublist (m.map Prod.fst) :=
  List.Sublist.map Prod.fst (List.filter_sublist m)

theorem nodup_keys_mdel (m : List (String × α)) (k : String)
    (h : (m.map Prod.fst).Nodup) :
    ((mdel m k).map Prod.fst).Nodup :=
  (keys_mdel_sublist m k).nodup h

theorem mem_of_mget (m : List (String × α)) (k : String) (v : α)
    (h : mget m k = some v) : (k, v) ∈ m := by
  induction m with
  | nil => simp [mget] at h
  | cons e m ih =>
    by_cases hek : e.1 = k
    · rw [mget, if_pos hek] at h
      obtain ⟨e1, e2⟩ := e
      injection h with h2
      subst h2
      subst hek
      exact List.mem_cons_self _ _
    · rw [mget, if_neg hek] at h
      exact List.mem_cons_of_mem e (ih h)

theorem mget_of_mem_nodup (m : List (String × α)) (k : String) (v : α)
    (hnd : (m.map Prod.fst).Nodup) (h : (k, v) ∈ m) :
    mget m k = some v := by
  induction m with
  | nil => simp at h
  | cons e m ih =>
    rw [List.map_cons, List.nodup_cons] at hnd
    rcases List.mem_cons.mp h with he | hm
    · subst he
      simp [mget]
    · have hek : ¬ e.1 = k := by
        intro hek
        exact hnd.1 (hek ▸ (List.mem_map_of_mem Prod.fst hm : (k, v).1 ∈ m.map Prod.fst))
      rw [mget, if_neg hek]
      exact ih hnd.2 hm

theorem mem_setAdd (s : List SocketId) (id a : SocketId) :
    a ∈ setAdd s id ↔ a ∈ s ∨ a = id := by
  unfold setAdd
  by_cases h : id ∈ s
  · simp only [if_pos h]
    constructor
    · exact Or.inl
    · rintro (ha | rfl)
      · exact ha
      · exact h
  · simp [if_neg h]

theorem mem_setDel (s : List SocketId) (id a : SocketId) :
    a ∈ setDel s id ↔ a ∈ s ∧ ¬ a = id := by
  simp [setDel, List.mem_filter]

theorem setAdd_ne_nil (s : List SocketId) (id : SocketId) :
    setAdd s id ≠ [] := by
  unfold setAdd
  by_cases h : id ∈ s
  · rw [if_pos h]
    exact List.ne_nil_of_mem h
  · rw [if_neg h]
    simp

end MapLemmas

section StateLemmas

theorem map_keyfix_id {α : Type} (m : List (String × α)) (k : String)
    (w : α) (h : mget m k = none) :
    (m.map fun e => if e.1 = k then (k, w) else e) = m := by
  induction m with
  | nil => rfl
  | cons e m ih =>
    rw [mget] at h
    by_cases hek : e.1 = k
    · rw [if_pos hek] at h; cases h
    · rw [if_neg hek] at h
      simp [hek, ih h]

theorem mset_of_mhas {α : Type} (m : List (String × α)) (k : String)
    (v : α) (h : mhas m k = true) :
    mset m k v = m.map fun e => if e.1 = k then (k, v) else e := by
  unfold mset
  rw [if_pos h]

theorem mset_of_not_mhas {α : Type} (m : List (String × α)) (k : String)
    (v : α) (h : ¬ mhas m k = true) : mset m k v = m ++ [(k, v)] := by
  unfold mset
  rw [if_neg h]

theorem mhas_mset_self {α : Type} (m : List (String × α)) (k : String)
    (v : α) : mhas (mset m k v) k = true := by
  unfold mhas
  rw [mget_mset, if_pos rfl]
  rfl

theorem mset_mset {α : Type} (m : List (String × α)) (k : String)
    (v w : α) : mset (mset m k v) k w = mset m k w := by
  by_cases h : mhas m k
  · rw [mset_of_mhas m k v h,
      mset_of_mhas _ k w (by rw [← mset_of_mhas m k v h]; exact mhas_mset_self m k v),
      List.map_map, mset_of_mhas m k w h]
    apply List.map_congr_left
    intro e _
    by_cases hek : e.1 = k
    · simp [hek]
    · simp [hek]
  · have hget : mget m k = none := by
      unfold mhas at h
      rwa [Option.not_isSome_iff_eq_none] at h
    rw [mset_of_not_mhas m k v h,
      mset_of_mhas _ k w (by rw [← mset_of_not_mhas m k v h]; exact mhas_mset_self m k v),
      List.map_append, map_keyfix_id m k w hget,
      mset_of_not_mhas m k w h]
    simp

theorem leaveOldRoom_players (sid : SocketId) (r : RoomId)
    (s : ServerState) : (leaveOldRoom sid r s).1.players = s.players := by
  unfold leaveOldRoom
  cases mget s.rooms r with
  | none => rfl
  | some ms =>
    by_cases h : setDel ms sid = []
    · simp [h]
    · simp [h]

theorem leaveOldRoom_rooms (sid : SocketId) (r : RoomId)
    (s : ServerState) :
    (leaveOldRoom sid r s).1.rooms = roomsAfterLeave s.rooms r sid := by
  unfold leaveOldRoom roomsAfterLeave
  cases mget s.rooms r with
  | none => rfl
  | some ms =>
    by_cases h : setDel ms sid = []
    · simp [h]
    · simp [h]

theorem roomsAfterLeave_of_none (rooms : List (RoomId × List SocketId))
    (r0 : RoomId) (sid : SocketId) (hms : mget rooms r0 = none) :
    roomsAfterLeave rooms r0 sid = rooms := by
  unfold roomsAfterLeave
  rw [hms]

theorem roomsAfterLeave_of_empty (rooms : List (RoomId × List SocketId))
    (r0 : RoomId) (sid : SocketId) (ms : List SocketId)
    (hms : mget rooms r0 = some ms) (he : setDel ms sid = []) :
    roomsAfterLeave rooms r0 sid = mdel rooms r0 := by
  unfold roomsAfterLeave
  rw [hms]
  exact if_pos he

theorem roomsAfterLeave_of_nonempty (rooms : List (RoomId × List SocketId))
    (r0 : RoomId) (sid : SocketId) (ms : List SocketId)
    (hms : mget rooms r0 = some ms) (he : ¬ setDel ms sid = []) :
    roomsAfterLeave rooms r0 sid = mset rooms r0 (setDel ms sid) := by
  unfold roomsAfterLeave
  rw [hms]
  exact if_neg he

theorem mget_roomsAfterLeave_ne (rooms : List (RoomId × List SocketId))
    (r0 : RoomId) (sid : SocketId) (r : RoomId) (hr : ¬ r = r0) :
    mget (roomsAfterLeave rooms r0 sid) r = mget rooms r := by
  cases hms : mget rooms r0 with
  | none => rw [roomsAfterLeave_of_none rooms r0 sid hms]
  | some ms =>
    by_cases he : setDel ms sid = []
    · rw [roomsAfterLeave_of_empty rooms r0 sid ms hms he, mget_mdel,
        if_neg hr]
    · rw [roomsAfterLeave_of_nonempty rooms r0 sid ms hms he, mget_mset,
        if_neg hr]

theorem mem_roomsAfterLeave (rooms : List (RoomId × List SocketId))
    (r0 : RoomId) (sid : SocketId) (r : RoomId) (id : SocketId) :
    id ∈ (mget (roomsAfterLeave rooms r0 sid) r).getD [] ↔
      (id ∈ (mget rooms r).getD [] ∧ ¬ (id = sid ∧ r = r0)) := by
  by_cases hr : r = r0
  · subst hr
    cases hms : mget rooms r with
    | none =>
      rw [roomsAfterLeave_of_none rooms r sid hms, hms]
      simp
    | some ms =>
      by_cases he : setDel ms sid = []
      · rw [roomsAfterLeave_of_empty rooms r sid ms hms he, mget_mdel,
          if_pos rfl]
        simp only [Option.getD_none, List.not_mem_nil, false_iff,
          Option.getD_some]
        rintro ⟨hmem, hne⟩
        have hmem2 : id ∈ setDel ms sid := (mem_setDel ms sid id).mpr
          ⟨hmem, fun hh => hne ⟨hh, by trivial⟩⟩
        rw [he] at hmem2
        exact List.not_mem_nil id hmem2
      · rw [roomsAfterLeave_of_nonempty rooms r sid ms hms he, mget_mset,
          if_pos rfl]
        simp only [Option.getD_some]
        rw [mem_setDel]
        constructor
        · rintro ⟨hmem, hne⟩
          exact ⟨hmem, fun hh => hne hh.1⟩
        · rintro ⟨hmem, hne⟩
          exact ⟨hmem, fun hh => hne ⟨hh, by trivial⟩⟩
  · rw [mget_roomsAfterLeave_ne rooms r0 sid r hr]
    simp [hr]

theorem nodup_keys_roomsAfterLeave (rooms : List (RoomId × List SocketId))
    (r0 : RoomId) (sid : SocketId) (h : (rooms.map Prod.fst).Nodup) :
    ((roomsAfterLeave rooms r0 sid).map Prod.fst).Nodup := by
  cases hms : mget rooms r0 with
  | none => rw [roomsAfterLeave_of_none rooms r0 sid hms]; exact h
  | some ms =>
    by_cases he : setDel ms sid = []
    · rw [roomsAfterLeave_of_empty rooms r0 sid ms hms he]
      exact nodup_keys_mdel rooms r0 h
    · rw [roomsAfterLeave_of_nonempty rooms r0 sid ms hms he]
      exact nodup_keys_mset rooms r0 _ h

theorem rne_roomsAfterLeave (rooms : List (RoomId × List SocketId))
    (r0 : RoomId) (sid : SocketId)
    (h : ∀ r ms, mget rooms r = some ms → ms ≠ []) :
    ∀ r ms, mget (roomsAfterLeave rooms r0 sid) r = some ms → ms ≠ [] := by
  intro r ms hms
  by_cases hr : r = r0
  · subst hr
    cases hms0 : mget rooms r with
    | none =>
      rw [roomsAfterLeave_of_none rooms r sid hms0, hms0] at hms
      cases hms
    | some ms0 =>
      by_cases he : setDel ms0 sid = []
      · rw [roomsAfterLeave_of_empty rooms r sid ms0 hms0 he, mget_mdel,
          if_pos rfl] at hms
        cases hms
      · rw [roomsAfterLeave_of_nonempty rooms r sid ms0 hms0 he, mget_mset,
          if_pos rfl] at hms
        cases hms
        exact he
  · rw [mget_roomsAfterLeave_ne rooms r0 sid r hr] at hms
    exact h r ms hms

theorem onJoinRoom_state (now : Nat) (sid : SocketId) (roomId : RoomId)
    (s : ServerState) (player : Player)
    (h : mget s.players sid = some player) :
    (onJoinRoom now sid roomId s).1 = joinStateAux now sid roomId player s := by
  unfold onJoinRoom joinStateAux
  rw [h]
  cases hroom : jsRoom player.room with
  | none =>
    by_cases hh : mhas s.rooms roomId
    · simp [hroom, hh, roomMembers]
    · have hget : mget s.rooms roomId = none := by
        unfold mhas at hh
        rwa [Option.not_isSome_iff_eq_none] at hh
      simp [hroom, hh, roomMembers, mget_mset, hget, mset_mset]
  | some oldR =>
    by_cases hh : mhas (roomsAfterLeave s.rooms oldR sid) roomId
    · simp [hroom, hh, roomMembers, leaveOldRoom_players, leaveOldRoom_rooms]
    · have hget : mget (roomsAfterLeave s.rooms oldR sid) roomId = none := by
        unfold mhas at hh
        rwa [Option.not_isSome_iff_eq_none] at hh
      simp [hroom, hh, roomMembers, leaveOldRoom_players, leaveOldRoom_rooms,
        mget_mset, hget, mset_mset]

end StateLemmas

section HandlerShape

theorem roomMembers_mk (P : List (SocketId × Player))
    (R : List (RoomId × List SocketId)) (r : RoomId) :
    roomMembers { players := P, rooms := R } r = (mget R r).getD [] := rfl

theorem onJoinRoom_of_none (now : Nat) (sid : SocketId) (roomId : RoomId)
    (s : ServerState) (hp : mget s.players sid = none) :
    onJoinRoom now sid roomId s =
      (s, [.unicast sid (.errorMsg "Player not registered")]) := by
  unfold onJoinRoom
  rw [hp]

theorem onLeaveRoom_of_none (sid : SocketId) (s : ServerState)
    (hp : mget s.players sid = none) : onLeaveRoom sid s = (s, []) := by
  unfold onLeaveRoom
  rw [hp]

theorem onLeaveRoom_of_noroom (sid : SocketId) (s : ServerState)
    (player : Player) (hp : mget s.players sid = some player)
    (hroom : jsRoom player.room = none) : onLeaveRoom sid s = (s, []) := by
  unfold onLeaveRoom
  rw [hp]
  simp only [hroom]

theorem onLeaveRoom_of_room (sid : SocketId) (s : ServerState)
    (player : Player) (r0 : RoomId) (hp : mget s.players sid = some player)
    (hroom : jsRoom player.room = some r0) :
    onLeaveRoom sid s =
      ({ players := mset s.players sid { player with room := none },
         rooms := roomsAfterLeave s.rooms r0 sid },
       (leaveOldRoom sid r0 s).2) := by
  unfold onLeaveRoom
  rw [hp]
  simp only [hroom, leaveOldRoom_players, leaveOldRoom_rooms]

theorem onPlayerMove_of_none (now : Nat) (sid : SocketId) (dx dy : JSVal)
    (s : ServerState) (hp : mget s.players sid = none) :
    onPlayerMove now sid dx dy s = (s, []) := by
  unfold onPlayerMove
  rw [hp]

theorem onPlayerMove_of_noroom (now : Nat) (sid : SocketId) (dx dy : JSVal)
    (s : ServerState) (player : Player)
    (hp : mget s.players sid = some player)
    (hroom : jsRoom player.room = none) :
    onPlayerMove now sid dx dy s = (s, []) := by
  unfold onPlayerMove
  rw [hp]
  simp only [hroom]

theorem onPlayerMove_of_room (now : Nat) (sid : SocketId) (dx dy : JSVal)
    (s : ServerState) (player : Player) (r : RoomId)
    (hp : mget s.players sid = some player)
    (hroom : jsRoom player.room = some r) :
    onPlayerMove now sid dx dy s =
      ({ s with players := mset s.players sid { player with x := clampCoord 750 dx, y := clampCoord 350 dy, lastUpdate := now } },
       [.toRoomExceptSender r sid
         (.playerMoved sid (clampCoord 750 dx) (clampCoord 350 dy) now)]) := by
  unfold onPlayerMove
  rw [hp]
  simp only [hroom]

theorem onChatMessage_of_str (now : Nat) (sid : SocketId) (text : String)
    (s : ServerState) (player : Player) (r : RoomId)
    (hp : mget s.players sid = some player)
    (hroom : jsRoom player.room = some r) :
    onChatMessage now sid (.str text) s =
      .ok (s, [.toRoomAll r
        (.chatMessage now sid player.username (jsSlice text 200) now)]) := by
  unfold onChatMessage
  rw [hp]
  simp only [hroom]

theorem onChatMessage_throw (now : Nat) (sid : SocketId) (msg : JSVal)
    (s : ServerState) (player : Player) (r : RoomId)
    (hp : mget s.players sid = some player)
    (hroom : jsRoom player.room = some r)
    (hmsg : ∀ t, msg ≠ JSVal.str t) :
    onChatMessage now sid msg s =
      .error (.typeError "data.message.slice is not a function") := by
  unfold onChatMessage
  rw [hp]
  simp only [hroom]

theorem chatResultState_eq (now : Nat) (sid : SocketId) (msg : JSVal)
    (s : ServerState) : chatResultState now sid msg s = s := by
  unfold chatResultState onChatMessage
  cases hp : mget s.players sid with
  | none => rfl
  | some player =>
    cases hroom : jsRoom player.room with
    | none => simp only [hroom]
    | some r => cases msg <;> simp only [hroom]

theorem onDisconnect_eq (sid : SocketId) (s : ServerState) :
    onDisconnect sid s =
      ({ players := mdel (onLeaveRoom sid s).1.players sid,
         rooms := (onLeaveRoom sid s).1.rooms },
       (onLeaveRoom sid s).2) := by
  cases hp : mget s.players sid with
  | none =>
    rw [onLeaveRoom_of_none sid s hp]
    unfold onDisconnect
    rw [hp, mdel_of_mget_none s.players sid hp]
  | some player =>
    cases hroom : jsRoom player.room with
    | none =>
      rw [onLeaveRoom_of_noroom sid s player hp hroom]
      unfold onDisconnect
      rw [hp]
      simp only [hroom]
    | some r0 =>
      rw [onLeaveRoom_of_room sid s player r0 hp hroom]
      unfold onDisconnect
      rw [hp]
      simp only [hroom, leaveOldRoom_players, leaveOldRoom_rooms,
        mdel_mset]

theorem evictPlayer_players (sid : SocketId) (p : Player)
    (t : ServerState) :
    (evictPlayer sid p t).players = mdel t.players sid := by
  unfold evictPlayer
  cases jsRoom p.room <;> rfl

theorem evictPlayer_rooms_none (sid : SocketId) (p : Player)
    (t : ServerState) (hroom : jsRoom p.room = none) :
    (evictPlayer sid p t).rooms = t.rooms := by
  unfold evictPlayer
  rw [hroom]

theorem evictPlayer_rooms_some (sid : SocketId) (p : Player)
    (t : ServerState) (r0 : RoomId) (hroom : jsRoom p.room = some r0) :
    (evictPlayer sid p t).rooms = roomsAfterLeave t.rooms r0 sid := by
  unfold evictPlayer
  rw [hroom]

end HandlerShape

section InvariantPreservation

theorem mem_roomMembers_iff (s : ServerState) (r : RoomId) (id : SocketId) :
    id ∈ roomMembers s r ↔ ∃ ms, mget s.rooms r = some ms ∧ id ∈ ms := by
  unfold roomMembers
  cases h : mget s.rooms r with
  | none => simp
  | some ms => simp

theorem isSome_of_member (s : ServerState) (hInv : InvP s) (r : RoomId)
    (id : SocketId) (hmem : id ∈ roomMembers s r) :
    (mget s.players id).isSome := by
  obtain ⟨ms, hms, hid⟩ := (mem_roomMembers_iff s r id).mp hmem
  exact hInv.reg r ms hms id hid

theorem jsRoom_eq (o : Option RoomId) (h : o ≠ some "") : jsRoom o = o := by
  cases o with
  | none => rfl
  | some r =>
    have hr : r ≠ "" := fun hh => h (by rw [hh])
    simp [jsRoom, hr]

theorem jsRoom_some_eq (o : Option RoomId) (r : RoomId)
    (h : jsRoom o = some r) : o = some r := by
  cases o with
  | none => cases h
  | some r2 =>
    by_cases hr : r2 = ""
    · simp [jsRoom, hr] at h
    · simp [jsRoom, hr] at h
      rw [h]

theorem jsRoom_none_eq (o : Option RoomId) (hne : o ≠ some "")
    (h : jsRoom o = none) : o = none := by
  rw [← jsRoom_eq o hne]
  exact h

theorem invP_init : InvP initState := by
  constructor
  · simp [initState]
  · simp [initState]
  · intro r ms h
    simp [initState, mget] at h
  · intro r ms h
    simp [initState, mget] at h
  · intro sid p h
    simp [initState, mget] at h
  · intro sid p h
    simp [initState, mget] at h

theorem invP_players_update (s : ServerState) (sid : SocketId)
    (player player1 : Player) (hInv : InvP s)
    (hp : mget s.players sid = some player)
    (hr : player1.room = player.room) :
    InvP { s with players := mset s.players sid player1 } := by
  constructor
  · exact nodup_keys_mset s.players sid player1 hInv.pkeys
  · exact hInv.rkeys
  · exact hInv.rne
  · intro r ms hms id hid
    show (mget (mset s.players sid player1) id).isSome
    rw [mget_mset]
    by_cases h : id = sid
    · rw [if_pos h]; rfl
    · rw [if_neg h]; exact hInv.reg r ms hms id hid
  · intro id q hq r
    have hq' : mget (mset s.players sid player1) id = some q := hq
    rw [mget_mset] at hq'
    by_cases h : id = sid
    · rw [if_pos h] at hq'
      injection hq' with hq2
      subst h
      subst hq2
      rw [hr]
      exact hInv.sync id player hp r
    · rw [if_neg h] at hq'
      exact hInv.sync id q hq' r
  · intro id q hq
    have hq2 : mget (mset s.players sid player1) id = some q := hq
    rw [mget_mset] at hq2
    by_cases h : id = sid
    · rw [if_pos h] at hq2
      injection hq2 with h2
      rw [← h2, hr]
      exact hInv.noER sid player hp
    · rw [if_neg h] at hq2
      exact hInv.noER id q hq2

theorem invP_players_insert (s : ServerState) (sid : SocketId)
    (player1 : Player) (hInv : InvP s) (hp : mget s.players sid = none)
    (hr : player1.room = none) :
    InvP { s with players := mset s.players sid player1 } := by
  constructor
  · exact nodup_keys_mset s.players sid player1 hInv.pkeys
  · exact hInv.rkeys
  · exact hInv.rne
  · intro r ms hms id hid
    show (mget (mset s.players sid player1) id).isSome
    rw [mget_mset]
    by_cases h : id = sid
    · rw [if_pos h]; rfl
    · rw [if_neg h]; exact hInv.reg r ms hms id hid
  · intro id q hq r
    have hq' : mget (mset s.players sid player1) id = some q := hq
    rw [mget_mset] at hq'
    by_cases h : id = sid
    · rw [if_pos h] at hq'
      injection hq' with hq2
      subst h
      subst hq2
      rw [hr]
      constructor
      · intro hmem
        have h3 := isSome_of_member s hInv r id hmem
        rw [hp] at h3
        cases h3
      · intro hh
        cases hh
    · rw [if_neg h] at hq'
      exact hInv.sync id q hq' r
  · intro id q hq
    have hq2 : mget (mset s.players sid player1) id = some q := hq
    rw [mget_mset] at hq2
    by_cases h : id = sid
    · rw [if_pos h] at hq2
      injection hq2 with h2
      rw [← h2, hr]
      simp
    · rw [if_neg h] at hq2
      exact hInv.noER id q hq2

theorem invP_mdel_roomless (s : ServerState) (sid : SocketId)
    (hInv : InvP s)
    (hq : ∀ q, mget s.players sid = some q → q.room = none) :
    InvP { s with players := mdel s.players sid } := by
  constructor
  · exact nodup_keys_mdel s.players sid hInv.pkeys
  · exact hInv.rkeys
  · exact hInv.rne
  · intro r ms hms id hid
    show (mget (mdel s.players sid) id).isSome
    rw [mget_mdel]
    by_cases h : id = sid
    · exfalso
      subst h
      have hsome := hInv.reg r ms hms id hid
      obtain ⟨q, hgot⟩ := Option.isSome_iff_exists.mp hsome
      have hnone := hq q hgot
      have hmem : id ∈ roomMembers s r := by
        apply (mem_roomMembers_iff s r id).mpr
        exact ⟨ms, hms, hid⟩
      have := (hInv.sync id q hgot r).mp hmem
      rw [hnone] at this
      cases this
    · rw [if_neg h]
      exact hInv.reg r ms hms id hid
  · intro id q hgot r
    have hgot' : mget (mdel s.players sid) id = some q := hgot
    rw [mget_mdel] at hgot'
    by_cases h : id = sid
    · rw [if_pos h] at hgot'
      cases hgot'
    · rw [if_neg h] at hgot'
      exact hInv.sync id q hgot' r
  · intro id q hgot
    have hgot2 : mget (mdel s.players sid) id = some q := hgot
    rw [mget_mdel] at hgot2
    by_cases h : id = sid
    · rw [if_pos h] at hgot2
      cases hgot2
    · rw [if_neg h] at hgot2
      exact hInv.noER id q hgot2

theorem invP_leaveRemoveState (s : ServerState) (sid : SocketId)
    (p : Player) (r0 : RoomId) (hInv : InvP s)
    (hp : mget s.players sid = some p) (hroom : p.room = some r0) :
    InvP { players := mdel s.players sid,
           rooms := roomsAfterLeave s.rooms r0 sid } := by
  constructor
  · exact nodup_keys_mdel s.players sid hInv.pkeys
  · exact nodup_keys_roomsAfterLeave s.rooms r0 sid hInv.rkeys
  · exact rne_roomsAfterLeave s.rooms r0 sid hInv.rne
  · intro r ms hms id hid
    have hms' : mget (roomsAfterLeave s.rooms r0 sid) r = some ms := hms
    have hmem : id ∈ (mget (roomsAfterLeave s.rooms r0 sid) r).getD [] := by
      rw [hms']; exact hid
    obtain ⟨hmem0, hne⟩ :=
      (mem_roomsAfterLeave s.rooms r0 sid r id).mp hmem
    show (mget (mdel s.players sid) id).isSome
    rw [mget_mdel]
    by_cases h : id = sid
    · exfalso
      subst h
      have hq := (hInv.sync id p hp r).mp hmem0
      rw [hroom] at hq
      injection hq with hq2
      exact hne ⟨rfl, hq2.symm⟩
    · rw [if_neg h]
      exact isSome_of_member s hInv r id hmem0
  · intro id q hgot r
    have hgot' : mget (mdel s.players sid) id = some q := hgot
    rw [mget_mdel] at hgot'
    by_cases h : id = sid
    · rw [if_pos h] at hgot'
      cases hgot'
    · rw [if_neg h] at hgot'
      have hiff := mem_roomsAfterLeave s.rooms r0 sid r id
      constructor
      · intro hmem
        exact (hInv.sync id q hgot' r).mp (hiff.mp hmem).1
      · intro hq
        exact hiff.mpr ⟨(hInv.sync id q hgot' r).mpr hq,
          fun hc => h hc.1⟩
  · intro id q hgot
    have hgot2 : mget (mdel s.players sid) id = some q := hgot
    rw [mget_mdel] at hgot2
    by_cases h : id = sid
    · rw [if_pos h] at hgot2
      cases hgot2
    · rw [if_neg h] at hgot2
      exact hInv.noER id q hgot2

theorem hmem_of_roomMembers (s : ServerState) (r : RoomId) (id : SocketId)
    (hmem : id ∈ roomMembers s r) :
    ∃ ms, mget s.rooms r = some ms ∧ id ∈ ms :=
  (mem_roomMembers_iff s r id).mp hmem

theorem invP_register (now : Nat) (sid : SocketId) (u : Option String)
    (a : Option Avatar) (s : ServerState) (hInv : InvP s)
    (hGood : ∀ p, mget s.players sid = some p → p.room = none) :
    InvP (registerPlayer now sid u a s).1 := by
  cases hp : mget s.players sid with
  | some pOld =>
    have h2 := invP_players_update s sid pOld
      { id := sid,
        username := match u with
          | some v => if v = "" then "Player_" ++ jsSlice sid 6 else v
          | none => "Player_" ++ jsSlice sid 6,
        avatar := a.getD defaultAvatar,
        x := .val 50, y := .val 300, room := none, lastUpdate := now }
      hInv hp (by rw [hGood pOld hp])
    exact h2
  | none =>
    have h2 := invP_players_insert s sid
      { id := sid,
        username := match u with
          | some v => if v = "" then "Player_" ++ jsSlice sid 6 else v
          | none => "Player_" ++ jsSlice sid 6,
        avatar := a.getD defaultAvatar,
        x := .val 50, y := .val 300, room := none, lastUpdate := now }
      hInv hp rfl
    exact h2

theorem invP_joinCore (now : Nat) (sid : SocketId) (roomId : RoomId)
    (player : Player) (s : ServerState) (hInv : InvP s)
    (hp : mget s.players sid = some player) (hrid : roomId ≠ "")
    (rooms1 : List (RoomId × List SocketId))
    (h1 : (rooms1.map Prod.fst).Nodup)
    (h2 : ∀ r ms, mget rooms1 r = some ms → ms ≠ [])
    (h3 : ∀ r id, id ∈ (mget rooms1 r).getD [] → id ∈ roomMembers s r)
    (h4 : ∀ id q, mget s.players id = some q → ∀ r,
      (id ∈ (mget rooms1 r).getD [] ↔
        (q.room = some r ∧ ¬ (id = sid ∧ player.room = some r)))) :
    InvP { players := mset s.players sid
             { player with room := some roomId, lastUpdate := now },
           rooms := mset rooms1 roomId
             (setAdd ((mget rooms1 roomId).getD []) sid) } := by
  constructor
  · exact nodup_keys_mset s.players sid _ hInv.pkeys
  · exact nodup_keys_mset rooms1 roomId _ h1
  · intro r ms hms
    have hms' : mget (mset rooms1 roomId
        (setAdd ((mget rooms1 roomId).getD []) sid)) r = some ms := hms
    rw [mget_mset] at hms'
    by_cases hr : r = roomId
    · rw [if_pos hr] at hms'
      injection hms' with hms2
      rw [← hms2]
      exact setAdd_ne_nil _ _
    · rw [if_neg hr] at hms'
      exact h2 r ms hms'
  · intro r ms hms id hid
    have hms' : mget (mset rooms1 roomId
        (setAdd ((mget rooms1 roomId).getD []) sid)) r = some ms := hms
    rw [mget_mset] at hms'
    show (mget (mset s.players sid
      { player with room := some roomId, lastUpdate := now }) id).isSome
    rw [mget_mset]
    by_cases h : id = sid
    · rw [if_pos h]; rfl
    · rw [if_neg h]
      by_cases hr : r = roomId
      · rw [if_pos hr] at hms'
        injection hms' with hms2
        rw [← hms2] at hid
        rcases (mem_setAdd _ sid id).mp hid with hid1 | hid2
        · exact isSome_of_member s hInv roomId id (h3 roomId id hid1)
        · exact absurd hid2 h
      · rw [if_neg hr] at hms'
        have : id ∈ (mget rooms1 r).getD [] := by rw [hms']; exact hid
        exact isSome_of_member s hInv r id (h3 r id this)
  · intro id q hgot r
    have hgot' : mget (mset s.players sid
        { player with room := some roomId, lastUpdate := now }) id
        = some q := hgot
    rw [mget_mset] at hgot'
    have hmem : roomMembers
        { players := mset s.players sid
            { player with room := some roomId, lastUpdate := now },
          rooms := mset rooms1 roomId
            (setAdd ((mget rooms1 roomId).getD []) sid) } r
        = (mget (mset rooms1 roomId
            (setAdd ((mget rooms1 roomId).getD []) sid)) r).getD [] := rfl
    rw [hmem, mget_mset]
    by_cases h : id = sid
    · rw [if_pos h] at hgot'
      injection hgot' with hgot2
      subst h
      rw [← hgot2]
      by_cases hr : r = roomId
      · subst hr
        rw [if_pos rfl]
        simp only [Option.getD_some]
        constructor
        · intro _; trivial
        · intro _
          exact (mem_setAdd _ id id).mpr (Or.inr rfl)
      · rw [if_neg hr]
        constructor
        · intro hmem2
          have := (h4 id player hp r).mp hmem2
          exact absurd ⟨rfl, this.1⟩ this.2
        · intro hh
          simp only at hh
          injection hh with hh2
          exact absurd hh2.symm hr
    · rw [if_neg h] at hgot'
      by_cases hr : r = roomId
      · subst hr
        rw [if_pos rfl]
        simp only [Option.getD_some]
        rw [mem_setAdd]
        constructor
        · intro hh
          rcases hh with hh1 | hh2
          · exact ((h4 id q hgot' r).mp hh1).1
          · exact absurd hh2 h
        · intro hh
          exact Or.inl ((h4 id q hgot' r).mpr ⟨hh, fun hc => h hc.1⟩)
      · rw [if_neg hr]
        constructor
        · intro hh
          exact ((h4 id q hgot' r).mp hh).1
        · intro hh
          exact (h4 id q hgot' r).mpr ⟨hh, fun hc => h hc.1⟩
  · intro id q hgot
    have hgot2 : mget (mset s.players sid
        { player with room := some roomId, lastUpdate := now }) id
        = some q := hgot
    rw [mget_mset] at hgot2
    by_cases h : id = sid
    · rw [if_pos h] at hgot2
      injection hgot2 with h2
      rw [← h2]
      show some roomId ≠ some ""
      intro hc
      injection hc with hc2
      exact hrid hc2
    · rw [if_neg h] at hgot2
      exact hInv.noER id q hgot2

theorem invP_joinStateAux (now : Nat) (sid : SocketId) (roomId : RoomId)
    (player : Player) (s : ServerState) (hInv : InvP s)
    (hp : mget s.players sid = some player) (hrid : roomId ≠ "") :
    InvP (joinStateAux now sid roomId player s) := by
  unfold joinStateAux
  cases hroom : jsRoom player.room with
  | none =>
    have hroom2 : player.room = none :=
      jsRoom_none_eq player.room (hInv.noER sid player hp) hroom
    simp only
    apply invP_joinCore now sid roomId player s hInv hp hrid s.rooms
      hInv.rkeys hInv.rne
    · intro r id hid
      exact hid
    · intro id q hgot r
      rw [hroom2]
      constructor
      · intro hh
        refine ⟨(hInv.sync id q hgot r).mp hh, ?_⟩
        rintro ⟨_, hc⟩
        cases hc
      · intro hh
        exact (hInv.sync id q hgot r).mpr hh.1
  | some oldR =>
    have hroom2 : player.room = some oldR :=
      jsRoom_some_eq player.room oldR hroom
    simp only
    apply invP_joinCore now sid roomId player s hInv hp hrid
      (roomsAfterLeave s.rooms oldR sid)
      (nodup_keys_roomsAfterLeave s.rooms oldR sid hInv.rkeys)
      (rne_roomsAfterLeave s.rooms oldR sid hInv.rne)
    · intro r id hid
      exact ((mem_roomsAfterLeave s.rooms oldR sid r id).mp hid).1
    · intro id q hgot r
      rw [hroom2]
      rw [mem_roomsAfterLeave s.rooms oldR sid r id]
      constructor
      · rintro ⟨hm, hne⟩
        refine ⟨(hInv.sync id q hgot r).mp hm, ?_⟩
        rintro ⟨hid, hr⟩
        injection hr with hr2
        exact hne ⟨hid, hr2.symm⟩
      · rintro ⟨hq, hne⟩
        refine ⟨(hInv.sync id q hgot r).mpr hq, ?_⟩
        rintro ⟨hid, hr⟩
        exact hne ⟨hid, by rw [hr]⟩

theorem invP_join (now : Nat) (sid : SocketId) (roomId : RoomId)
    (s : ServerState) (hInv : InvP s) (hrid : roomId ≠ "") :
    InvP (onJoinRoom now sid roomId s).1 := by
  cases hp : mget s.players sid with
  | none =>
    rw [onJoinRoom_of_none now sid roomId s hp]
    exact hInv
  | some player =>
    rw [onJoinRoom_state now sid roomId s player hp]
    exact invP_joinStateAux now sid roomId player s hInv hp hrid

theorem invP_leave (sid : SocketId) (s : ServerState) (hInv : InvP s) :
    InvP (onLeaveRoom sid s).1 := by
  cases hp : mget s.players sid with
  | none =>
    rw [onLeaveRoom_of_none sid s hp]
    exact hInv
  | some player =>
    have hjs : jsRoom player.room = player.room :=
      jsRoom_eq player.room (hInv.noER sid player hp)
    cases hroom : player.room with
    | none =>
      rw [onLeaveRoom_of_noroom sid s player hp (by rw [hjs]; exact hroom)]
      exact hInv
    | some r0 =>
      rw [onLeaveRoom_of_room sid s player r0 hp (by rw [hjs]; exact hroom)]
      constructor
      · exact nodup_keys_mset s.players sid _ hInv.pkeys
      · exact nodup_keys_roomsAfterLeave s.rooms r0 sid hInv.rkeys
      · exact rne_roomsAfterLeave s.rooms r0 sid hInv.rne
      · intro r ms hms id hid
        have hms' : mget (roomsAfterLeave s.rooms r0 sid) r = some ms := hms
        have hmem : id ∈ (mget (roomsAfterLeave s.rooms r0 sid) r).getD []
          := by rw [hms']; exact hid
        obtain ⟨hmem0, hne⟩ :=
          (mem_roomsAfterLeave s.rooms r0 sid r id).mp hmem
        show (mget (mset s.players sid { player with room := none })
          id).isSome
        rw [mget_mset]
        by_cases h : id = sid
        · rw [if_pos h]; rfl
        · rw [if_neg h]
          exact isSome_of_member s hInv r id hmem0
      · intro id q hgot r
        have hgot' : mget (mset s.players sid { player with room := none })
            id = some q := hgot
        rw [mget_mset] at hgot'
        have hiff := mem_roomsAfterLeave s.rooms r0 sid r id
        by_cases h : id = sid
        · rw [if_pos h] at hgot'
          injection hgot' with hgot2
          subst h
          rw [← hgot2]
          simp only
          constructor
          · intro hmem
            obtain ⟨hm, hne⟩ := hiff.mp hmem
            have := (hInv.sync id player hp r).mp hm
            rw [hroom] at this
            injection this with h2
            exact absurd ⟨rfl, h2.symm⟩ hne
          · intro hh
            cases hh
        · rw [if_neg h] at hgot'
          constructor
          · intro hmem
            exact (hInv.sync id q hgot' r).mp (hiff.mp hmem).1
          · intro hq
            exact hiff.mpr ⟨(hInv.sync id q hgot' r).mpr hq,
              fun hc => h hc.1⟩
      · intro id q hgot
        have hgot2 : mget (mset s.players sid { player with room := none })
            id = some q := hgot
        rw [mget_mset] at hgot2
        by_cases h : id = sid
        · rw [if_pos h] at hgot2
          injection hgot2 with h2
          rw [← h2]
          show (none : Option RoomId) ≠ some ""
          intro hc
          cases hc
        · rw [if_neg h] at hgot2
          exact hInv.noER id q hgot2

theorem invP_move (now : Nat) (sid : SocketId) (dx dy : JSVal)
    (s : ServerState) (hInv : InvP s) :
    InvP (onPlayerMove now sid dx dy s).1 := by
  cases hp : mget s.players sid with
  | none =>
    rw [onPlayerMove_of_none now sid dx dy s hp]
    exact hInv
  | some player =>
    have hjs : jsRoom player.room = player.room :=
      jsRoom_eq player.room (hInv.noER sid player hp)
    cases hroom : player.room with
    | none =>
      rw [onPlayerMove_of_noroom now sid dx dy s player hp
        (by rw [hjs]; exact hroom)]
      exact hInv
    | some r =>
      rw [onPlayerMove_of_room now sid dx dy s player r hp
        (by rw [hjs]; exact hroom)]
      exact invP_players_update s sid player _ hInv hp rfl

theorem invP_chat (now : Nat) (sid : SocketId) (msg : JSVal)
    (s : ServerState) (hInv : InvP s) :
    InvP (chatResultState now sid msg s) := by
  rw [chatResultState_eq]
  exact hInv

theorem invP_disconnect (sid : SocketId) (s : ServerState)
    (hInv : InvP s) : InvP (onDisconnect sid s).1 := by
  rw [onDisconnect_eq]
  have hleave := invP_leave sid s hInv
  have hroomless : ∀ q, mget (onLeaveRoom sid s).1.players sid = some q →
      q.room = none := by
    intro q hq
    cases hp : mget s.players sid with
    | none =>
      rw [onLeaveRoom_of_none sid s hp] at hq
      rw [hp] at hq
      cases hq
    | some player =>
      have hjs : jsRoom player.room = player.room :=
        jsRoom_eq player.room (hInv.noER sid player hp)
      cases hroom : player.room with
      | none =>
        rw [onLeaveRoom_of_noroom sid s player hp
          (by rw [hjs]; exact hroom)] at hq
        rw [hp] at hq
        injection hq with h2
        rw [← h2]
        exact hroom
      | some r0 =>
        rw [onLeaveRoom_of_room sid s player r0 hp
          (by rw [hjs]; exact hroom)] at hq
        have hq' : mget (mset s.players sid { player with room := none })
            sid = some q := hq
        rw [mget_mset, if_pos rfl] at hq'
        injection hq' with h2
        rw [← h2]

  exact invP_mdel_roomless (onLeaveRoom sid s).1 sid hleave hroomless

theorem invP_evict (sid : SocketId) (p : Player) (t : ServerState)
    (hInv : InvP t) (hp : mget t.players sid = some p) :
    InvP (evictPlayer sid p t) := by
  have hjs : jsRoom p.room = p.room :=
    jsRoom_eq p.room (hInv.noER sid p hp)
  cases hroom : p.room with
  | none =>
    have heq : evictPlayer sid p t = { t with players := mdel t.players sid }
      := by
      unfold evictPlayer
      rw [hjs, hroom]
    rw [heq]
    apply invP_mdel_roomless t sid hInv
    intro q hq
    rw [hp] at hq
    injection hq with h2
    rw [← h2]
    exact hroom
  | some r0 =>
    have heq : evictPlayer sid p t =
        { players := mdel t.players sid,
          rooms := roomsAfterLeave t.rooms r0 sid } := by
      unfold evictPlayer
      rw [hjs, hroom]
    rw [heq]
    exact invP_leaveRemoveState t sid p r0 hInv hp hroom

theorem reapFold_master (now : Nat) (l : List (SocketId × Player)) :
    ∀ (t : ServerState), InvP t →
      (∀ e ∈ l, mget t.players e.1 = some e.2) →
      ((l.map Prod.fst).Nodup) →
      InvP (l.foldl (reapStep now) t) ∧
      (∀ sid, mget (l.foldl (reapStep now) t).players sid =
        if staleKeyIn now l sid then none else mget t.players sid) ∧
      (∀ r id, id ∈ roomMembers (l.foldl (reapStep now) t) r ↔
        (id ∈ roomMembers t r ∧ evictedIn now l r id = false)) := by
  induction l with
  | nil =>
    intro t hInv hent hnd
    refine ⟨hInv, ?_, ?_⟩
    · intro sid
      simp [staleKeyIn]
    · intro r id
      simp [evictedIn]
  | cons e l ih =>
    intro t hInv hent hnd
    rw [List.foldl_cons]
    rw [List.map_cons, List.nodup_cons] at hnd
    by_cases hst : isStale now e.2 = true
    · have hstep : reapStep now t e = evictPlayer e.1 e.2 t := by
        unfold reapStep
        rw [if_pos hst]
      rw [hstep]
      have hpe : mget t.players e.1 = some e.2 :=
        hent e (List.mem_cons_self e l)
      have hInv2 : InvP (evictPlayer e.1 e.2 t) :=
        invP_evict e.1 e.2 t hInv hpe
      have hplayers2 : (evictPlayer e.1 e.2 t).players = mdel t.players e.1 :=
        evictPlayer_players e.1 e.2 t
      have hent2 : ∀ e2 ∈ l, mget (evictPlayer e.1 e.2 t).players e2.1
          = some e2.2 := by
        intro e2 he2
        rw [hplayers2, mget_mdel]
        have hne : ¬ e2.1 = e.1 := by
          intro hh
          exact hnd.1 (hh ▸ List.mem_map_of_mem Prod.fst he2)
        rw [if_neg hne]
        exact hent e2 (List.mem_cons_of_mem e he2)
      obtain ⟨ih1, ih2, ih3⟩ := ih (evictPlayer e.1 e.2 t) hInv2 hent2 hnd.2
      refine ⟨ih1, ?_, ?_⟩
      · intro sid
        rw [ih2 sid, hplayers2, mget_mdel]
        have hcons : staleKeyIn now (e :: l) sid =
            (decide (e.1 = sid) || staleKeyIn now l sid) := by
          simp [staleKeyIn, List.any_cons, hst]
        rw [hcons]
        by_cases h2 : sid = e.1
        · subst h2
          simp
        · have h3 : decide (e.1 = sid) = false := by
            simp
            intro hh
            exact absurd hh.symm h2
          rw [h3]
          simp [h2]
      · intro r id
        rw [ih3 r id]
        have hjs : jsRoom e.2.room = e.2.room :=
          jsRoom_eq e.2.room (hInv.noER e.1 e.2 hpe)
        cases hroom : e.2.room with
        | none =>
          have hrooms2 : (evictPlayer e.1 e.2 t).rooms = t.rooms :=
            evictPlayer_rooms_none e.1 e.2 t (by rw [hjs, hroom])
          have hmm : roomMembers (evictPlayer e.1 e.2 t) r
              = roomMembers t r := by
            unfold roomMembers
            rw [hrooms2]
          rw [hmm]
          have hcons : evictedIn now (e :: l) r id = evictedIn now l r id
            := by
            simp [evictedIn, List.any_cons, hst, hroom]
          rw [hcons]
        | some r0 =>
          have hrooms2 : (evictPlayer e.1 e.2 t).rooms
              = roomsAfterLeave t.rooms r0 e.1 :=
            evictPlayer_rooms_some e.1 e.2 t r0 (by rw [hjs, hroom])
          have hmm : ∀ id2, id2 ∈ roomMembers (evictPlayer e.1 e.2 t) r ↔
              (id2 ∈ roomMembers t r ∧ ¬ (id2 = e.1 ∧ r = r0)) := by
            intro id2
            unfold roomMembers
            rw [hrooms2]
            exact mem_roomsAfterLeave t.rooms r0 e.1 r id2
          rw [hmm id]
          have hcons : evictedIn now (e :: l) r id =
              ((decide (e.1 = id) && decide (some r0 = some r))
                || evictedIn now l r id) := by
            simp [evictedIn, List.any_cons, hst, hroom]
          rw [hcons]
          constructor
          · rintro ⟨⟨hm, hne⟩, hev⟩
            refine ⟨hm, ?_⟩
            rw [Bool.or_eq_false_iff]
            refine ⟨?_, hev⟩
            by_cases hii : e.1 = id
            · by_cases hrr : r = r0
              · exact absurd ⟨hii.symm, hrr⟩ hne
              · have : ((some r0 : Option RoomId) = some r) = False := by
                  simp
                  intro hh
                  exact absurd hh.symm hrr
                simp [this]
            · simp [hii]
          · rintro ⟨hm, hb⟩
            obtain ⟨ha, hev⟩ := Bool.or_eq_false_iff.mp hb
            refine ⟨⟨hm, ?_⟩, hev⟩
            rintro ⟨hie, hrr0⟩
            subst hie
            subst hrr0
            simp at ha
    · have hstep : reapStep now t e = t := by
        unfold reapStep
        rw [if_neg hst]
      rw [hstep]
      obtain ⟨ih1, ih2, ih3⟩ := ih t hInv
        (fun e2 he2 => hent e2 (List.mem_cons_of_mem e he2)) hnd.2
      have hstf : isStale now e.2 = false := by
        rw [Bool.not_eq_true] at hst
        exact hst
      refine ⟨ih1, ?_, ?_⟩
      · intro sid
        rw [ih2 sid]
        have hcons : staleKeyIn now (e :: l) sid = staleKeyIn now l sid := by
          simp [staleKeyIn, List.any_cons, hstf]
        rw [hcons]
      · intro r id
        rw [ih3 r id]
        have hcons : evictedIn now (e :: l) r id = evictedIn now l r id := by
          simp [evictedIn, List.any_cons, hstf]
        rw [hcons]

theorem reaperTick_master (now : Nat) (s : ServerState) (hInv : InvP s) :
    InvP (reaperTick now s).1 ∧
    (∀ sid, mget (reaperTick now s).1.players sid =
      if staleKeyIn now s.players sid then none else mget s.players sid) ∧
    (∀ r id, id ∈ roomMembers (reaperTick now s).1 r ↔
      (id ∈ roomMembers s r ∧ evictedIn now s.players r id = false)) := by
  have hent : ∀ e ∈ s.players, mget s.players e.1 = some e.2 := by
    intro e he
    apply mget_of_mem_nodup s.players e.1 e.2 hInv.pkeys
    rw [Prod.mk.eta]
    exact he
  exact reapFold_master now s.players s hInv hent hInv.pkeys

theorem invP_applyOp (s : ServerState) (op : Op) (hInv : InvP s)
    (hGood : goodOp s op = true) : InvP (applyOp s op) := by
  cases op with
  | register now sid u a =>
    apply invP_register now sid u a s hInv
    intro p hp
    have hGood2 : (match mget s.players sid with
        | none => true
        | some p => decide (p.room = none)) = true := hGood
    rw [hp] at hGood2
    exact of_decide_eq_true hGood2
  | join now sid r =>
    have h2 : (!decide (r = "")) = true := hGood
    rw [Bool.not_eq_true', decide_eq_false_iff_not] at h2
    exact invP_join now sid r s hInv h2
  | leave sid => exact invP_leave sid s hInv
  | move now sid dx dy => exact invP_move now sid dx dy s hInv
  | chat now sid m => exact invP_chat now sid m s hInv
  | disconnect sid => exact invP_disconnect sid s hInv
  | reap now => exact (reaperTick_master now s hInv).1

theorem invP_runFrom (ops : List Op) : ∀ (s : ServerState), InvP s →
    goodFrom s ops = true → InvP (runFrom s ops) := by
  induction ops with
  | nil =>
    intro s hInv _
    exact hInv
  | cons op ops ih =>
    intro s hInv hGood
    unfold goodFrom at hGood
    obtain ⟨h1, h2⟩ := Bool.and_eq_true_iff.mp hGood
    exact ih (applyOp s op) (invP_applyOp s op hInv h1) h2

theorem invP_run (ops : List Op) (h : GoodSeq ops) : InvP (run ops) :=
  invP_runFrom ops initState invP_init h

theorem staleKeyIn_true_of (now : Nat) (l : List (SocketId × Player))
    (sid : SocketId) (p : Player) (h : mget l sid = some p)
    (hst : isStale now p = true) : staleKeyIn now l sid = true := by
  unfold staleKeyIn
  rw [List.any_eq_true]
  refine ⟨(sid, p), mem_of_mget l sid p h, ?_⟩
  simp [hst]

theorem staleKeyIn_false_of (now : Nat) (l : List (SocketId × Player))
    (sid : SocketId) (p : Player) (hnd : (l.map Prod.fst).Nodup)
    (h : mget l sid = some p) (hst : isStale now p = false) :
    staleKeyIn now l sid = false := by
  unfold staleKeyIn
  rw [List.any_eq_false]
  intro e he
  by_cases hk : e.1 = sid
  · have : mget l sid = some e.2 := by
      apply mget_of_mem_nodup l sid e.2 hnd
      rw [← hk, Prod.mk.eta]
      exact he
    rw [h] at this
    injection this with h2
    simp [hk, ← h2, hst]
  · simp [hk]

theorem evictedIn_true_of (now : Nat) (l : List (SocketId × Player))
    (r : RoomId) (id : SocketId) (p : Player) (h : mget l id = some p)
    (hst : isStale now p = true) (hroom : p.room = some r) :
    evictedIn now l r id = true := by
  unfold evictedIn
  rw [List.any_eq_true]
  refine ⟨(id, p), mem_of_mget l id p h, ?_⟩
  simp [hst, hroom]

theorem evictedIn_false_of (now : Nat) (l : List (SocketId × Player))
    (r : RoomId) (id : SocketId) (p : Player)
    (hnd : (l.map Prod.fst).Nodup) (h : mget l id = some p)
    (hst : isStale now p = false) : evictedIn now l r id = false := by
  unfold evictedIn
  rw [List.any_eq_false]
  intro e he
  by_cases hk : e.1 = id
  · have : mget l id = some e.2 := by
      apply mget_of_mem_nodup l id e.2 hnd
      rw [← hk, Prod.mk.eta]
      exact he
    rw [h] at this
    injection this with h2
    simp [hk, ← h2, hst]
  · simp [hk]

theorem invCheck_invP (s : ServerState) (h : invCheck s = true) :
    InvP s := by
  unfold invCheck at h
  rw [Bool.and_eq_true, Bool.and_eq_true, Bool.and_eq_true,
    Bool.and_eq_true] at h
  obtain ⟨⟨⟨⟨h1, h2⟩, h3⟩, h4⟩, h5⟩ := h
  rw [List.all_eq_true] at h3
  rw [List.all_eq_true] at h4
  rw [List.all_eq_true] at h5
  constructor
  · exact of_decide_eq_true h1
  · exact of_decide_eq_true h2
  · intro r ms hms
    have he := h3 (r, ms) (mem_of_mget s.rooms r ms hms)
    obtain ⟨he1, _⟩ := Bool.and_eq_true_iff.mp he
    intro hnil
    rw [hnil] at he1
    simp at he1
  · intro r ms hms id hid
    have he := h3 (r, ms) (mem_of_mget s.rooms r ms hms)
    obtain ⟨_, he2⟩ := Bool.and_eq_true_iff.mp he
    rw [List.all_eq_true] at he2
    exact he2 id hid
  · intro sid p hp r
    have he := h4 (sid, p) (mem_of_mget s.players sid p hp)
    obtain ⟨he1, he2⟩ := Bool.and_eq_true_iff.mp he
    rw [List.all_eq_true] at he2
    constructor
    · intro hmem
      obtain ⟨ms, hms, hid⟩ := (mem_roomMembers_iff s r sid).mp hmem
      have hcl := he2 (r, ms) (mem_of_mget s.rooms r ms hms)
      rcases Bool.or_eq_true_iff.mp hcl with hcl1 | hcl2
      · exfalso
        simp at hcl1
        exact hcl1 hid
      · exact of_decide_eq_true hcl2
    · intro hroom
      rw [hroom] at he1
      exact of_decide_eq_true he1
  · intro sid p hp
    have he := h5 (sid, p) (mem_of_mget s.players sid p hp)
    simp only at he
    rw [Bool.not_eq_true', decide_eq_false_iff_not] at he
    exact he

theorem rne_evict (sid : SocketId) (p : Player) (t : ServerState)
    (h : ∀ r ms, mget t.rooms r = some ms → ms ≠ []) :
    ∀ r ms, mget (evictPlayer sid p t).rooms r = some ms → ms ≠ [] := by
  cases hroom : jsRoom p.room with
  | none =>
    rw [evictPlayer_rooms_none sid p t hroom]
    exact h
  | some r0 =>
    rw [evictPlayer_rooms_some sid p t r0 hroom]
    exact rne_roomsAfterLeave t.rooms r0 sid h

theorem rne_reapFold (now : Nat) (l : List (SocketId × Player)) :
    ∀ (t : ServerState), (∀ r ms, mget t.rooms r = some ms → ms ≠ []) →
    ∀ r ms, mget (l.foldl (reapStep now) t).rooms r = some ms → ms ≠ [] := by
  induction l with
  | nil =>
    intro t h
    exact h
  | cons e l ih =>
    intro t h
    rw [List.foldl_cons]
    by_cases hst : isStale now e.2 = true
    · have hstep : reapStep now t e = evictPlayer e.1 e.2 t := by
        unfold reapStep
        rw [if_pos hst]
      rw [hstep]
      exact ih (evictPlayer e.1 e.2 t) (rne_evict e.1 e.2 t h)
    · have hstep : reapStep now t e = t := by
        unfold reapStep
        rw [if_neg hst]
      rw [hstep]
      exact ih t h

theorem rne_leave (sid : SocketId) (s : ServerState)
    (h : ∀ r ms, mget s.rooms r = some ms → ms ≠ []) :
    ∀ r ms, mget (onLeaveRoom sid s).1.rooms r = some ms → ms ≠ [] := by
  cases hp : mget s.players sid with
  | none =>
    rw [onLeaveRoom_of_none sid s hp]
    exact h
  | some player =>
    cases hroom : jsRoom player.room with
    | none =>
      rw [onLeaveRoom_of_noroom sid s player hp hroom]
      exact h
    | some r0 =>
      rw [onLeaveRoom_of_room sid s player r0 hp hroom]
      exact rne_roomsAfterLeave s.rooms r0 sid h

theorem rne_applyOp (s : ServerState) (op : Op)
    (h : ∀ r ms, mget s.rooms r = some ms → ms ≠ []) :
    ∀ r ms, mget (applyOp s op).rooms r = some ms → ms ≠ [] := by
  cases op with
  | register now sid u a => exact h
  | join now sid roomId =>
    cases hp : mget s.players sid with
    | none =>
      rw [show applyOp s (Op.join now sid roomId)
          = (onJoinRoom now sid roomId s).1 from rfl,
        onJoinRoom_of_none now sid roomId s hp]
      exact h
    | some player =>
      rw [show applyOp s (Op.join now sid roomId)
          = (onJoinRoom now sid roomId s).1 from rfl,
        onJoinRoom_state now sid roomId s player hp]
      unfold joinStateAux
      cases hroom : jsRoom player.room with
      | none =>
        simp only
        intro r ms hms
        have hms' : mget (mset s.rooms roomId
            (setAdd ((mget s.rooms roomId).getD []) sid)) r = some ms := hms
        rw [mget_mset] at hms'
        by_cases hr : r = roomId
        · rw [if_pos hr] at hms'
          injection hms' with h2
          rw [← h2]
          exact setAdd_ne_nil _ _
        · rw [if_neg hr] at hms'
          exact h r ms hms'
      | some oldR =>
        simp only
        intro r ms hms
        have hms' : mget (mset (roomsAfterLeave s.rooms oldR sid) roomId
            (setAdd ((mget (roomsAfterLeave s.rooms oldR sid) roomId).getD [])
              sid)) r = some ms := hms
        rw [mget_mset] at hms'
        by_cases hr : r = roomId
        · rw [if_pos hr] at hms'
          injection hms' with h2
          rw [← h2]
          exact setAdd_ne_nil _ _
        · rw [if_neg hr] at hms'
          exact rne_roomsAfterLeave s.rooms oldR sid h r ms hms'
  | leave sid => exact rne_leave sid s h
  | move now sid dx dy =>
    cases hp : mget s.players sid with
    | none =>
      rw [show applyOp s (Op.move now sid dx dy)
          = (onPlayerMove now sid dx dy s).1 from rfl,
        onPlayerMove_of_none now sid dx dy s hp]
      exact h
    | some player =>
      cases hroom : jsRoom player.room with
      | none =>
        rw [show applyOp s (Op.move now sid dx dy)
            = (onPlayerMove now sid dx dy s).1 from rfl,
          onPlayerMove_of_noroom now sid dx dy s player hp hroom]
        exact h
      | some r =>
        rw [show applyOp s (Op.move now sid dx dy)
            = (onPlayerMove now sid dx dy s).1 from rfl,
          onPlayerMove_of_room now sid dx dy s player r hp hroom]
        exact h
  | chat now sid m =>
    rw [show applyOp s (Op.chat now sid m) = chatResultState now sid m s
      from rfl, chatResultState_eq]
    exact h
  | disconnect sid =>
    rw [show applyOp s (Op.disconnect sid) = (onDisconnect sid s).1
      from rfl, onDisconnect_eq]
    exact rne_leave sid s h
  | reap now =>
    exact rne_reapFold now s.players s h

theorem rne_runFrom (ops : List Op) : ∀ (s : ServerState),
    (∀ r ms, mget s.rooms r = some ms → ms ≠ []) →
    ∀ r ms, mget (runFrom s ops).rooms r = some ms → ms ≠ [] := by
  induction ops with
  | nil =>
    intro s h
    exact h
  | cons op ops ih =>
    intro s h
    exact ih (applyOp s op) (rne_applyOp s op h)

theorem rne_run (ops : List Op) :
    ∀ r ms, mget (run ops).rooms r = some ms → ms ≠ [] := by
  apply rne_runFrom ops initState
  intro r ms h
  simp [initState, mget] at h

end InvariantPreservation

section ClaimSupport

theorem c1Prop_of_invP (s : ServerState) (hInv : InvP s) : c1Prop s := by
  intro sid p hp
  constructor
  · constructor
    · intro hne
      cases hq : p.room with
      | none => exact absurd hq hne
      | some r => exact ⟨r, (hInv.sync sid p hp r).mpr hq⟩
    · rintro ⟨r, hmem⟩
      rw [(hInv.sync sid p hp r).mp hmem]
      simp
  · intro r1 r2 h1 h2
    have e1 := (hInv.sync sid p hp r1).mp h1
    have e2 := (hInv.sync sid p hp r2).mp h2
    rw [e1] at e2
    injection e2

theorem clampCoord_range (bound : ℚ) (v : JSVal) (hb : 0 ≤ bound)
    (h : toNumber (jsOr v (.num (.val 0))) ≠ JNum.nan) :
    jInRange (clampCoord bound v) 0 bound := by
  unfold clampCoord
  cases hn : toNumber (jsOr v (.num (.val 0))) with
  | nan => exact absurd hn h
  | val q =>
    unfold jsMin jsMax
    simp only
    exact ⟨max 0 (min bound q), rfl, le_max_left 0 _,
      max_le hb (min_le_left bound q)⟩

theorem onJoinRoom_events (now : Nat) (sid : SocketId) (roomId : RoomId)
    (s : ServerState) (player : Player)
    (hp : mget s.players sid = some player) :
    (onJoinRoom now sid roomId s).2 =
      (match jsRoom player.room with
        | some oldR => (leaveOldRoom sid oldR s).2
        | none => []) ++
      [.unicast sid (.playersUpdate (joinRoster now sid roomId player s)),
       .toRoomExceptSender roomId sid
         (.playerJoined player.id player.username player.avatar
           player.x player.y)] := by
  unfold onJoinRoom joinRoster
  rw [hp]
  cases hroom : jsRoom player.room with
  | none =>
    by_cases hh : mhas s.rooms roomId
    · simp [hroom, hh, joinStateAux, roomMembers]
    · have hget : mget s.rooms roomId = none := by
        unfold mhas at hh
        rwa [Option.not_isSome_iff_eq_none] at hh
      simp [hroom, hh, joinStateAux, roomMembers, mget_mset, hget,
        mset_mset]
  | some oldR =>
    by_cases hh : mhas (roomsAfterLeave s.rooms oldR sid) roomId
    · simp [hroom, hh, joinStateAux, roomMembers, leaveOldRoom_players,
        leaveOldRoom_rooms]
    · have hget : mget (roomsAfterLeave s.rooms oldR sid) roomId = none := by
        unfold mhas at hh
        rwa [Option.not_isSome_iff_eq_none] at hh
      simp [hroom, hh, joinStateAux, roomMembers, leaveOldRoom_players,
        leaveOldRoom_rooms, mget_mset, hget, mset_mset]

theorem joinRoster_excludes (now : Nat) (sid : SocketId) (roomId : RoomId)
    (s : ServerState) (player : Player)
    (hIds : ∀ e ∈ s.players, e.2.id = e.1) :
    ∀ q ∈ joinRoster now sid roomId player s, q.id ≠ sid := by
  intro q hq
  unfold joinRoster at hq
  obtain ⟨i, hi, hgq⟩ := List.mem_filterMap.mp hq
  have hine : ¬ i = sid := by
    have h2 := (List.mem_filter.mp hi).2
    simpa using h2
  have hgq2 : mget (mset s.players sid
      { player with room := some roomId, lastUpdate := now }) i
      = some q := hgq
  rw [mget_mset, if_neg hine] at hgq2
  have h3 := hIds (i, q) (mem_of_mget s.players i q hgq2)
  simp only at h3
  rw [h3]
  exact hine

end ClaimSupport

section Claims

/-- C1 (amended): on every state reachable by a sequence of events in which
register-player is only ever sent by a connection not currently joined to a
room and join-room always targets a truthy (non-empty) room id, the `room`
field of a player is non-null iff the identity of that player appears in the
member set of exactly one room, and never in more than one.  (As stated, with
a register-player overwrite of an in-room player allowed, the claim is false;
see the counterexample.  Joining the falsy room id "" must also be excluded:
the handler then skips the old-room cleanup at lines 114-125, stranding the
membership.) -/
theorem c1_room_sync_goodSeq : ∀ ops, GoodSeq ops → c1Prop (run ops) :=
  fun ops h => c1Prop_of_invP (run ops) (invP_run ops h)

/-- C1 witness: a concrete benign sequence (register then join) whose final
state satisfies the membership-consistency property. -/
theorem c1_room_sync_goodSeq_witness :
    GoodSeq [Op.register 0 "a" none none, Op.join 1 "a" "r1"] ∧
    c1Prop (run [Op.register 0 "a" none none, Op.join 1 "a" "r1"]) :=
  ⟨by unfold GoodSeq; decide, c1_room_sync_goodSeq
    [Op.register 0 "a" none none, Op.join 1 "a" "r1"]
    (by unfold GoodSeq; decide)⟩

/-- C1 counterexample: register, join r1, then register again.  The
overwritten Player entry has `room = none` while the identity is still a
member of r1, so the claimed invariant fails on this reachable state. -/
theorem c1_reregister_counterexample :
    ¬ c1Prop (run [Op.register 0 "a" none none, Op.join 1 "a" "r1",
      Op.register 2 "a" none none]) := by
  intro h
  obtain ⟨hiff, _⟩ := h "a"
    { id := "a", username := "Player_a", avatar := defaultAvatar,
      x := .val 50, y := .val 300, room := none, lastUpdate := 2 }
    (by decide)
  have hmem : ∃ r, "a" ∈ roomMembers (run [Op.register 0 "a" none none,
      Op.join 1 "a" "r1", Op.register 2 "a" none none]) r :=
    ⟨"r1", by decide⟩
  exact hiff.mpr hmem rfl

/-- C2: over every operation sequence from the empty registries, a room key
is present in the rooms map iff its member set is non-empty; moreover a
successful join puts the joiner into the member set of the target room (creating
the room if absent). -/
theorem c2_room_iff_nonempty :
    (∀ ops r, mget (run ops).rooms r ≠ none ↔
      roomMembers (run ops) r ≠ []) ∧
    (∀ now sid roomId s player, mget s.players sid = some player →
      sid ∈ roomMembers (onJoinRoom now sid roomId s).1 roomId) := by
  constructor
  · intro ops r
    constructor
    · intro hne
      cases hms : mget (run ops).rooms r with
      | none => exact absurd hms hne
      | some ms =>
        have h2 := rne_run ops r ms hms
        unfold roomMembers
        rw [hms]
        simpa using h2
    · intro hmem hnone
      unfold roomMembers at hmem
      rw [hnone] at hmem
      exact hmem rfl
  · intro now sid roomId s player hp
    rw [onJoinRoom_state now sid roomId s player hp]
    simp only [joinStateAux, roomMembers]
    rw [mget_mset, if_pos rfl]
    simp only [Option.getD_some]
    exact (mem_setAdd _ sid sid).mpr (Or.inr rfl)

/-- C2 witness: joining r2 from a concrete state places the joiner in the
member set of the freshly created room. -/
theorem c2_room_iff_nonempty_witness :
    mget twoInRoom.players "a" = some playerA ∧
    "a" ∈ roomMembers (onJoinRoom 1 "a" "r2" twoInRoom).1 "r2" :=
  ⟨by decide, c2_room_iff_nonempty.2 1 "a" "r2" twoInRoom playerA
    (by decide)⟩

/-- C3 (amended): for a registered player whose room field is truthy (the
condition `player.room` at line 178, modelled by `jsRoom`, which rules out
null and the empty-string room id), whenever the payload coordinate coerces
to an actual number after the `v || 0` defaulting (which covers every
numeric, missing or falsy value), the stored position is clamped into x in
0..750 and y in 0..350.  (As stated the claim is false: a truthy non-numeric
payload such as the string "abc" coerces to NaN and is stored as NaN; see
the counterexample.) -/
theorem c3_move_clamped (now : Nat) (sid : SocketId) (dx dy : JSVal)
    (s : ServerState) (player : Player) (r : RoomId)
    (hp : mget s.players sid = some player)
    (hroom : jsRoom player.room = some r)
    (hx : toNumber (jsOr dx (.num (.val 0))) ≠ JNum.nan)
    (hy : toNumber (jsOr dy (.num (.val 0))) ≠ JNum.nan) :
    ∃ p1, mget (onPlayerMove now sid dx dy s).1.players sid = some p1 ∧
      jInRange p1.x 0 750 ∧ jInRange p1.y 0 350 := by
  rw [onPlayerMove_of_room now sid dx dy s player r hp hroom]
  refine ⟨{ player with x := clampCoord 750 dx, y := clampCoord 350 dy, lastUpdate := now }, ?_, ?_, ?_⟩
  · show mget (mset s.players sid { player with x := clampCoord 750 dx, y := clampCoord 350 dy, lastUpdate := now }) sid = some _
    rw [mget_mset, if_pos rfl]
  · exact clampCoord_range 750 dx (by norm_num) hx
  · exact clampCoord_range 350 dy (by norm_num) hy

/-- C3 witness: the spec scenario x = 9999, y = -50 stores the clamped
in-range position. -/
theorem c3_move_clamped_witness :
    mget twoInRoom.players "a" = some playerA ∧
    jsRoom playerA.room = some "r1" ∧
    toNumber (jsOr (JSVal.num (.val 9999)) (.num (.val 0))) ≠ JNum.nan ∧
    toNumber (jsOr (JSVal.num (.val (-50))) (.num (.val 0))) ≠ JNum.nan ∧
    (∃ p1, mget (onPlayerMove 7 "a" (JSVal.num (.val 9999))
        (JSVal.num (.val (-50))) twoInRoom).1.players "a" = some p1 ∧
      jInRange p1.x 0 750 ∧ jInRange p1.y 0 350) :=
  ⟨by decide, by decide, by decide, by decide,
    c3_move_clamped 7 "a" (JSVal.num (.val 9999)) (JSVal.num (.val (-50)))
      twoInRoom playerA "r1" (by decide) (by decide) (by decide)
      (by decide)⟩

/-- C3 counterexample: a player-move whose x payload is the truthy
non-numeric string "abc" stores NaN, which violates the claimed bound
0..750. -/
theorem c3_move_nan_counterexample :
    (∃ p1, mget (onPlayerMove 5 "a" (JSVal.str "abc")
        (JSVal.num (.val 10)) twoInRoom).1.players "a" = some p1 ∧
      p1.x = JNum.nan) ∧
    ¬ jInRange JNum.nan 0 750 := by
  constructor
  · refine ⟨{ id := "a", username := "alice", avatar := defaultAvatar, x := JNum.nan, y := .val 10, room := some "r1", lastUpdate := 5 }, ?_, rfl⟩
    decide
  · rintro ⟨q, hq, -, -⟩
    cases hq

/-- C4: a join-room event from a sender without a Player entry unicasts an
error notification to the sender and leaves the whole registry state (both
the players map and the rooms map) unchanged. -/
theorem c4_join_unregistered_error (now : Nat) (sid : SocketId)
    (roomId : RoomId) (s : ServerState) (hp : mget s.players sid = none) :
    onJoinRoom now sid roomId s =
      (s, [.unicast sid (.errorMsg "Player not registered")]) :=
  onJoinRoom_of_none now sid roomId s hp

/-- C4 witness: an unregistered connection z joining r9 gets the error
unicast and the state is untouched. -/
theorem c4_join_unregistered_error_witness :
    mget twoInRoom.players "z" = none ∧
    onJoinRoom 3 "z" "r9" twoInRoom =
      (twoInRoom, [.unicast "z" (.errorMsg "Player not registered")]) :=
  ⟨by decide, c4_join_unregistered_error 3 "z" "r9" twoInRoom (by decide)⟩

/-- C5: on a successful join, the emitted sequence ends with the roster
snapshot unicast to the joiner strictly before the player-joined broadcast
to the other members, and every entry of the roster has an id different
from the joiner (the joiner is excluded). -/
theorem c5_join_roster_order (now : Nat) (sid : SocketId)
    (roomId : RoomId) (s : ServerState) (player : Player)
    (hp : mget s.players sid = some player)
    (hIds : ∀ e ∈ s.players, e.2.id = e.1) :
    ∃ evs0 roster,
      (onJoinRoom now sid roomId s).2 =
        evs0 ++ [.unicast sid (.playersUpdate roster),
          .toRoomExceptSender roomId sid
            (.playerJoined player.id player.username player.avatar
              player.x player.y)] ∧
      ∀ q ∈ roster, q.id ≠ sid :=
  ⟨_, joinRoster now sid roomId player s,
    onJoinRoom_events now sid roomId s player hp,
    joinRoster_excludes now sid roomId s player hIds⟩

/-- C5 witness: player b joining r1 in a concrete two-player state. -/
theorem c5_join_roster_order_witness :
    mget twoInRoom.players "b" = some playerB ∧
    (∀ e ∈ twoInRoom.players, e.2.id = e.1) ∧
    (∃ evs0 roster,
      (onJoinRoom 9 "b" "r1" twoInRoom).2 =
        evs0 ++ [.unicast "b" (.playersUpdate roster),
          .toRoomExceptSender "r1" "b"
            (.playerJoined playerB.id playerB.username playerB.avatar
              playerB.x playerB.y)] ∧
      ∀ q ∈ roster, q.id ≠ "b") :=
  ⟨by decide, by decide,
    c5_join_roster_order 9 "b" "r1" twoInRoom playerB (by decide)
      (by decide)⟩

/-- C6: the disconnect handler equals leave-room followed by deleting the
Player entry, with the identical emitted events (same player-left broadcast
and same empty-room deletion); and for a never-registered connection it is
a complete no-op. -/
theorem c6_disconnect_refines_leave (sid : SocketId) (s : ServerState) :
    onDisconnect sid s =
      ({ players := mdel (onLeaveRoom sid s).1.players sid,
         rooms := (onLeaveRoom sid s).1.rooms },
       (onLeaveRoom sid s).2) ∧
    (mget s.players sid = none → onDisconnect sid s = (s, [])) := by
  refine ⟨onDisconnect_eq sid s, ?_⟩
  intro hp
  unfold onDisconnect
  rw [hp]

/-- C6 witness: disconnect of the never-registered connection z is a
no-op on a concrete state. -/
theorem c6_disconnect_refines_leave_witness :
    mget twoInRoom.players "z" = none ∧
    onDisconnect "z" twoInRoom = (twoInRoom, []) :=
  ⟨by decide, (c6_disconnect_refines_leave "z" twoInRoom).2 (by decide)⟩

/-- C7: on a well-formed registry state (in particular one where no player
carries the falsy room id "", which the eviction guard at line 279 would
skip), a reaper tick emits no events at all (evictions are silent); every
stale Player entry is removed from the players map and from the member
set of every room; every fresh entry and its memberships are untouched; and no
room with an empty member set remains (emptied rooms are deleted). -/
theorem c7_reaper_sweep (now : Nat) (s : ServerState)
    (hInv : invCheck s = true) :
    (reaperTick now s).2 = [] ∧
    (∀ sid p, mget s.players sid = some p → isStale now p = true →
      mget (reaperTick now s).1.players sid = none ∧
      ∀ r, sid ∉ roomMembers (reaperTick now s).1 r) ∧
    (∀ sid p, mget s.players sid = some p → isStale now p = false →
      mget (reaperTick now s).1.players sid = some p ∧
      ∀ r, (sid ∈ roomMembers (reaperTick now s).1 r ↔
        sid ∈ roomMembers s r)) ∧
    (∀ r ms, mget (reaperTick now s).1.rooms r = some ms → ms ≠ []) := by
  have hI := invCheck_invP s hInv
  obtain ⟨m1, m2, m3⟩ := reaperTick_master now s hI
  refine ⟨rfl, ?_, ?_, ?_⟩
  · intro sid p hp hst
    constructor
    · rw [m2 sid, staleKeyIn_true_of now s.players sid p hp hst]
      rfl
    · intro r hmem
      obtain ⟨hmem0, hev⟩ := (m3 r sid).mp hmem
      have hq := (hI.sync sid p hp r).mp hmem0
      have hev2 := evictedIn_true_of now s.players r sid p hp hst hq
      rw [hev2] at hev
      cases hev
  · intro sid p hp hst
    constructor
    · rw [m2 sid, staleKeyIn_false_of now s.players sid p hI.pkeys hp hst]
      exact hp
    · intro r
      rw [m3 r sid,
        evictedIn_false_of now s.players r sid p hI.pkeys hp hst]
      simp
  · exact rne_reapFold now s.players s hI.rne

/-- C7 witness: a tick at time 600000 over a state whose two players both
have lastUpdate 0 (stale beyond the 300000 ms threshold). -/
theorem c7_reaper_sweep_witness :
    invCheck twoInRoom = true ∧
    ((reaperTick 600000 twoInRoom).2 = [] ∧
    (∀ sid p, mget twoInRoom.players sid = some p →
      isStale 600000 p = true →
      mget (reaperTick 600000 twoInRoom).1.players sid = none ∧
      ∀ r, sid ∉ roomMembers (reaperTick 600000 twoInRoom).1 r) ∧
    (∀ sid p, mget twoInRoom.players sid = some p →
      isStale 600000 p = false →
      mget (reaperTick 600000 twoInRoom).1.players sid = some p ∧
      ∀ r, (sid ∈ roomMembers (reaperTick 600000 twoInRoom).1 r ↔
        sid ∈ roomMembers twoInRoom r)) ∧
    (∀ r ms, mget (reaperTick 600000 twoInRoom).1.rooms r = some ms →
      ms ≠ [])) :=
  ⟨by decide, c7_reaper_sweep 600000 twoInRoom (by decide)⟩

/-- C8: a chat-message from a registered player whose room field is truthy
(the guard `player.room` at line 200, modelled by `jsRoom`) with string text
is broadcast (and carried in the constructed message object) verbatim when
the text has at most 200 units, and truncated to exactly its first 200 units
otherwise. -/
theorem c8_chat_truncation (now : Nat) (sid : SocketId) (text : String)
    (s : ServerState) (player : Player) (r : RoomId)
    (hp : mget s.players sid = some player)
    (hroom : jsRoom player.room = some r) :
    ∃ t1, onChatMessage now sid (.str text) s =
        .ok (s, [.toRoomAll r
          (.chatMessage now sid player.username t1 now)]) ∧
      (text.length ≤ 200 → t1 = text) ∧
      (200 < text.length → t1.length = 200 ∧
        t1.data = text.data.take 200) := by
  refine ⟨jsSlice text 200,
    onChatMessage_of_str now sid text s player r hp hroom, ?_, ?_⟩
  · intro hle
    unfold jsSlice
    have h2 : text.data.take 200 = text.data :=
      List.take_of_length_le hle
    rw [h2]
  · intro hlt
    constructor
    · show (text.data.take 200).length = 200
      rw [List.length_take]
      exact min_eq_left (le_of_lt hlt)
    · rfl

/-- C8 witness: a five-character message is broadcast verbatim. -/
theorem c8_chat_truncation_witness :
    mget twoInRoom.players "a" = some playerA ∧
    jsRoom playerA.room = some "r1" ∧
    (∃ t1, onChatMessage 4 "a" (JSVal.str "hello") twoInRoom =
        .ok (twoInRoom, [.toRoomAll "r1"
          (.chatMessage 4 "a" playerA.username t1 4)]) ∧
      ("hello".length ≤ 200 → t1 = "hello") ∧
      (200 < "hello".length → t1.length = 200 ∧
        t1.data = "hello".data.take 200)) :=
  ⟨by decide, by decide,
    c8_chat_truncation 4 "a" "hello" twoInRoom playerA "r1" (by decide)
      (by decide)⟩

/-- C9: for a registered sender whose room field is truthy (the guards at
lines 178 and 200, modelled by `jsRoom`), with the transport room membership
agreeing with the registry, a chat-message is delivered to every current
member of the room including the sender, while a player-moved is delivered
to every current member except the sender, and the sender receives nothing
from its own move. -/
theorem c9_broadcast_targeting (now : Nat) (sid : SocketId) (text : String)
    (dx dy : JSVal) (s : ServerState) (player : Player) (r : RoomId)
    (io : RoomId → List SocketId)
    (hp : mget s.players sid = some player)
    (hroom : jsRoom player.room = some r)
    (hio : ∀ m, m ∈ io r ↔ m ∈ roomMembers s r)
    (hs : sid ∈ roomMembers s r) :
    (∃ c, onChatMessage now sid (.str text) s = .ok (s, [.toRoomAll r c]) ∧
      (∀ m ∈ roomMembers s r, (m, c) ∈ delivered io [.toRoomAll r c]) ∧
      (sid, c) ∈ delivered io [.toRoomAll r c]) ∧
    (∃ mv, (onPlayerMove now sid dx dy s).2 =
        [.toRoomExceptSender r sid mv] ∧
      (∀ m ∈ roomMembers s r, m ≠ sid →
        (m, mv) ∈ delivered io [.toRoomExceptSender r sid mv]) ∧
      (∀ q, (sid, q) ∉ delivered io [.toRoomExceptSender r sid mv])) := by
  constructor
  · refine ⟨.chatMessage now sid player.username (jsSlice text 200) now,
      onChatMessage_of_str now sid text s player r hp hroom, ?_, ?_⟩
    · intro m hm
      simp only [delivered, List.append_nil]
      exact List.mem_map.mpr ⟨m, (hio m).mpr hm, rfl⟩
    · simp only [delivered, List.append_nil]
      exact List.mem_map.mpr ⟨sid, (hio sid).mpr hs, rfl⟩
  · refine ⟨.playerMoved sid (clampCoord 750 dx) (clampCoord 350 dy) now,
      ?_, ?_, ?_⟩
    · rw [onPlayerMove_of_room now sid dx dy s player r hp hroom]
    · intro m hm hne
      simp only [delivered, List.append_nil]
      apply List.mem_map.mpr
      refine ⟨m, ?_, rfl⟩
      rw [List.mem_filter]
      refine ⟨(hio m).mpr hm, ?_⟩
      simp [hne]
    · intro q hq
      simp only [delivered, List.append_nil] at hq
      obtain ⟨m, hm, heq⟩ := List.mem_map.mp hq
      have hm2 := (List.mem_filter.mp hm).2
      have hmeq : m = sid := by
        have := congrArg Prod.fst heq
        simpa using this
      rw [hmeq] at hm2
      simp at hm2

/-- C9 witness: in the concrete two-player room with the transport
membership equal to the registry membership, chat echoes to both players
and movement reaches only the other player. -/
theorem c9_broadcast_targeting_witness :
    mget twoInRoom.players "a" = some playerA ∧
    jsRoom playerA.room = some "r1" ∧
    (∀ m, m ∈ (fun r2 => roomMembers twoInRoom r2) "r1" ↔
      m ∈ roomMembers twoInRoom "r1") ∧
    "a" ∈ roomMembers twoInRoom "r1" ∧
    ((∃ c, onChatMessage 6 "a" (.str "yo") twoInRoom =
        .ok (twoInRoom, [.toRoomAll "r1" c]) ∧
      (∀ m ∈ roomMembers twoInRoom "r1",
        (m, c) ∈ delivered (fun r2 => roomMembers twoInRoom r2)
          [.toRoomAll "r1" c]) ∧
      ("a", c) ∈ delivered (fun r2 => roomMembers twoInRoom r2)
        [.toRoomAll "r1" c]) ∧
    (∃ mv, (onPlayerMove 6 "a" (.num (.val 1)) (.num (.val 2))
        twoInRoom).2 = [.toRoomExceptSender "r1" "a" mv] ∧
      (∀ m ∈ roomMembers twoInRoom "r1", m ≠ "a" →
        (m, mv) ∈ delivered (fun r2 => roomMembers twoInRoom r2)
          [.toRoomExceptSender "r1" "a" mv]) ∧
      (∀ q, ("a", q) ∉ delivered (fun r2 => roomMembers twoInRoom r2)
        [.toRoomExceptSender "r1" "a" mv]))) :=
  ⟨by decide, by decide, fun m => Iff.rfl, by decide,
    c9_broadcast_targeting 6 "a" "yo" (.num (.val 1)) (.num (.val 2))
      twoInRoom playerA "r1" (fun r2 => roomMembers twoInRoom r2)
      (by decide) (by decide) (fun m => Iff.rfl) (by decide)⟩

/-- C10: a chat-message from a registered player whose room field is truthy
(the guard `player.room` at line 200, modelled by `jsRoom`: a sender with a
null or empty-string room is silently ignored instead) whose payload message
is not a string (so has no slice method in the modelled fragment) makes the
handler throw a TypeError rather than no-op or emit an error event, and the
registries are unchanged by the throw. -/
theorem c10_chat_nonstring_throws (now : Nat) (sid : SocketId)
    (msg : JSVal) (s : ServerState) (player : Player) (r : RoomId)
    (hp : mget s.players sid = some player)
    (hroom : jsRoom player.room = some r)
    (hmsg : ∀ t, msg ≠ JSVal.str t) :
    (∃ e, onChatMessage now sid msg s = Except.error e) ∧
    chatResultState now sid msg s = s :=
  ⟨⟨.typeError "data.message.slice is not a function",
      onChatMessage_throw now sid msg s player r hp hroom hmsg⟩,
    chatResultState_eq now sid msg s⟩

/-- C10 witness: an in-room player sending a payload without a message
field (message = undefined) makes the handler throw. -/
theorem c10_chat_nonstring_throws_witness :
    mget twoInRoom.players "a" = some playerA ∧
    jsRoom playerA.room = some "r1" ∧
    (∀ t, JSVal.undef ≠ JSVal.str t) ∧
    ((∃ e, onChatMessage 8 "a" JSVal.undef twoInRoom = Except.error e) ∧
      chatResultState 8 "a" JSVal.undef twoInRoom = twoInRoom) :=
  ⟨by decide, by decide, fun t h => JSVal.noConfusion h,
    c10_chat_nonstring_throws 8 "a" JSVal.undef twoInRoom playerA "r1"
      (by decide) (by decide) (fun t h => JSVal.noConfusion h)⟩

end Claims

end GameBox
